import Mathlib

/-
Bloomscape Japan: chart, colour and calendar helpers.

A shallow embedding of the pure helpers of the front end and the properties proved about them.

* `src/frontend/src/components/LineGraph.jsx`: `fillMissingYears`, `getLinearRegressionAndR`
  and the way `LineGraph` chains them.
* `src/frontend/src/utils/heatmapUtils.js`: `colormaps`, `getHeatmapColor`,
  `getDateFromDayOfYear`, `formatDateString`.

JavaScript numbers are embedded in exact arithmetic: an ordered field for the regression (the
theorems take the reals with `Real.sqrt`), the rationals for the colour interpolation and the
integers for years and day numbers. A JavaScript exception is an `Except.error`; a number that
can fail to be finite is a `JSNum`, which keeps `NaN` and the two infinities apart.
-/

-- ## Data model

/-- The exceptions the embedded code can raise. Reading a property of, or destructuring,
`undefined` raises a `TypeError`. -/
inductive JSError where
  | typeError
deriving DecidableEq

/-- One entry of a chart series, an object with a year under `xKey` and a value under `yKey`.
The year is an integer; `y = none` stands for a missing observation (`null`, or an absent key). -/
structure Sample (α : Type) where
  x : Int
  y : Option α
deriving DecidableEq

-- ## LineGraph.jsx: gap filling

/-- The lookup `yearMap[year]` in `yearMap = Object.fromEntries(data.map(d => [d[xKey], d[yKey]]))`.
`Object.fromEntries` writes the entries in order, so the last entry of a year wins. The outer
`none` is `undefined` (no entry for the year); `some v` is the stored value. -/
def yearMap {α : Type} : List (Sample α) → Int → Option (Option α)
  | [], _ => none
  | d :: ds, k =>
    match yearMap ds k with
    | some v => some v
    | none => if k = d.x then some d.y else none

/-- The function `fillMissingYears(data, xKey, yKey)`.
`minYear = Math.min(...years)` and `maxYear = Math.max(...years)`; the loop
`for (year = minYear; year <= maxYear; year++)` pushes one entry per year, whose value is
`yearMap[year] !== undefined ? yearMap[year] : null`. On an empty input the bounds are
`Infinity` and `-Infinity` and the loop body never runs. -/
def fillMissingYears {α : Type} (data : List (Sample α)) : List (Sample α) :=
  let years := data.map (fun d => d.x)
  match years.min?, years.max? with
  | some minYear, some maxYear =>
    (List.range (maxYear + 1 - minYear).toNat).map fun (i : Nat) =>
      let year := minYear + (i : Int)
      { x := year, y := match yearMap data year with
                        | some v => v
                        | none => none }
  | _, _ => []

-- ## LineGraph.jsx: linear regression

/-- A JavaScript number in exact arithmetic: a finite value, `NaN`, `Infinity` or `-Infinity`.
Finite values are exact (no rounding, no overflow), and a zero is the positive zero, which is
what a difference of equal numbers, an empty `length` and `Math.sqrt(0)` give. -/
inductive JSNum (α : Type) where
  | finite (v : α)
  | nan
  | posInf
  | negInf
deriving DecidableEq

/-- The object of `slope`, `intercept` and `r` returned by `getLinearRegressionAndR`. -/
structure TrendResult (α : Type) where
  slope : JSNum α
  intercept : JSNum α
  r : JSNum α
deriving DecidableEq

/-- The five accumulators `sumX`, `sumY`, `sumXX`, `sumYY`, `sumXY`. -/
structure Sums (α : Type) where
  sumX : α
  sumY : α
  sumXX : α
  sumYY : α
  sumXY : α

/-- The quotient `a / b` of two finite numbers: `0 / 0` is `NaN`, a positive number over zero is
`Infinity` and a negative number over zero is `-Infinity`. -/
def jsDiv {α : Type} [LinearOrderedField α] (a b : α) : JSNum α :=
  if b = 0 then
    if a = 0 then JSNum.nan else if 0 < a then JSNum.posInf else JSNum.negInf
  else JSNum.finite (a / b)

/-- The call `Math.sqrt(a)` for a finite `a`: `NaN` below zero, the square root otherwise. The
square root of the field is a parameter. -/
def jsSqrt {α : Type} [LinearOrderedField α] (sqrt : α → α) (a : α) : JSNum α :=
  if a < 0 then JSNum.nan else JSNum.finite (sqrt a)

/-- The product `a * b`: `NaN` stays `NaN`, an infinity times zero is `NaN`, and an infinity
times anything else is the infinity of the product of the signs. -/
def JSNum.mul {α : Type} [LinearOrderedField α] : JSNum α → JSNum α → JSNum α
  | JSNum.nan, _ => JSNum.nan
  | _, JSNum.nan => JSNum.nan
  | JSNum.finite a, JSNum.finite b => JSNum.finite (a * b)
  | JSNum.posInf, JSNum.finite b =>
    if b = 0 then JSNum.nan else if 0 < b then JSNum.posInf else JSNum.negInf
  | JSNum.negInf, JSNum.finite b =>
    if b = 0 then JSNum.nan else if 0 < b then JSNum.negInf else JSNum.posInf
  | JSNum.finite a, JSNum.posInf =>
    if a = 0 then JSNum.nan else if 0 < a then JSNum.posInf else JSNum.negInf
  | JSNum.finite a, JSNum.negInf =>
    if a = 0 then JSNum.nan else if 0 < a then JSNum.negInf else JSNum.posInf
  | JSNum.posInf, JSNum.posInf => JSNum.posInf
  | JSNum.posInf, JSNum.negInf => JSNum.negInf
  | JSNum.negInf, JSNum.posInf => JSNum.negInf
  | JSNum.negInf, JSNum.negInf => JSNum.posInf

/-- The difference `a - b`: `NaN` stays `NaN`, and the difference of two equal infinities is
`NaN`. -/
def JSNum.sub {α : Type} [LinearOrderedField α] : JSNum α → JSNum α → JSNum α
  | JSNum.nan, _ => JSNum.nan
  | _, JSNum.nan => JSNum.nan
  | JSNum.finite a, JSNum.finite b => JSNum.finite (a - b)
  | JSNum.finite _, JSNum.posInf => JSNum.negInf
  | JSNum.finite _, JSNum.negInf => JSNum.posInf
  | JSNum.posInf, JSNum.finite _ => JSNum.posInf
  | JSNum.negInf, JSNum.finite _ => JSNum.negInf
  | JSNum.posInf, JSNum.posInf => JSNum.nan
  | JSNum.posInf, JSNum.negInf => JSNum.posInf
  | JSNum.negInf, JSNum.posInf => JSNum.negInf
  | JSNum.negInf, JSNum.negInf => JSNum.nan

/-- The quotient `a / b`: `NaN` stays `NaN`, two finite numbers divide as in `jsDiv`, a finite
number over an infinity is zero, an infinity over a finite number keeps or flips its sign with
the sign of the divisor, and an infinity over an infinity is `NaN`. -/
def JSNum.div {α : Type} [LinearOrderedField α] : JSNum α → JSNum α → JSNum α
  | JSNum.nan, _ => JSNum.nan
  | _, JSNum.nan => JSNum.nan
  | JSNum.finite a, JSNum.finite b => jsDiv a b
  | JSNum.finite _, JSNum.posInf => JSNum.finite 0
  | JSNum.finite _, JSNum.negInf => JSNum.finite 0
  | JSNum.posInf, JSNum.finite b => if b < 0 then JSNum.negInf else JSNum.posInf
  | JSNum.negInf, JSNum.finite b => if b < 0 then JSNum.posInf else JSNum.negInf
  | JSNum.posInf, JSNum.posInf => JSNum.nan
  | JSNum.posInf, JSNum.negInf => JSNum.nan
  | JSNum.negInf, JSNum.posInf => JSNum.nan
  | JSNum.negInf, JSNum.negInf => JSNum.nan

/-- The loop `for (const d of data)` with body `sumX += x; sumY += y; sumXX += x * x;
sumYY += y * y; sumXY += x * y;`, started from five zeros. -/
def accumulate {α : Type} [LinearOrderedField α] (data : List (α × α)) : Sums α :=
  data.foldl
    (fun s d =>
      { sumX := s.sumX + d.1
        sumY := s.sumY + d.2
        sumXX := s.sumXX + d.1 * d.1
        sumYY := s.sumYY + d.2 * d.2
        sumXY := s.sumXY + d.1 * d.2 })
    { sumX := 0, sumY := 0, sumXX := 0, sumYY := 0, sumXY := 0 }

/-- The function `getLinearRegressionAndR(data, xKey, yKey)` on samples with numeric `x` and `y`.
The body has no `throw` and no property access that can fail, so the result is always
`Except.ok`. The five sums are finite; `slope`, `intercept`, `denominator` and `r` are the
quotients, the product, the difference and the square root of the source, on `JSNum`. -/
def getLinearRegressionAndR {α : Type} [LinearOrderedField α] (sqrt : α → α)
    (data : List (α × α)) : Except JSError (TrendResult α) :=
  let n : α := (data.length : α)
  let s := accumulate data
  let slope := jsDiv (n * s.sumXY - s.sumX * s.sumY) (n * s.sumXX - s.sumX * s.sumX)
  let intercept :=
    JSNum.div (JSNum.sub (JSNum.finite s.sumY) (JSNum.mul slope (JSNum.finite s.sumX)))
      (JSNum.finite n)
  let numerator := n * s.sumXY - s.sumX * s.sumY
  let denominator :=
    jsSqrt sqrt ((n * s.sumXX - s.sumX * s.sumX) * (n * s.sumYY - s.sumY * s.sumY))
  let r := JSNum.div (JSNum.finite numerator) denominator
  Except.ok { slope := slope, intercept := intercept, r := r }

/-- The filter `completeData.filter(d => d[yDataKey] != null)` of `LineGraph`. -/
def validData {α : Type} (completeData : List (Sample α)) : List (Sample α) :=
  completeData.filter fun d => d.y.isSome

/-- The reads `d[xKey]` and `d[yKey]` of the regression loop on chart entries: the year as a
number, and the value, where arithmetic on `null` reads it as `0`. -/
def numericSamples {α : Type} [LinearOrderedField α] (data : List (Sample α)) : List (α × α) :=
  data.map fun d => ((d.x : α), d.y.getD 0)

/-- The first three statements of `LineGraph`: `completeData = fillMissingYears(data, ..)`,
`validData = completeData.filter(..)` and the call
`getLinearRegressionAndR(validData, xDataKey, yDataKey)`. -/
def lineGraphRegression {α : Type} [LinearOrderedField α] (sqrt : α → α)
    (data : List (Sample α)) : Except JSError (TrendResult α) :=
  let completeData := fillMissingYears data
  getLinearRegressionAndR sqrt (numericSamples (validData completeData))

/-- The sum of squared residuals of the line `y = a * x + b` over the samples: the quantity an
ordinary least-squares fit minimises. -/
def sumSquaredResiduals {α : Type} [LinearOrderedField α] (data : List (α × α)) (a b : α) : α :=
  (data.map fun p => (p.2 - a * p.1 - b) ^ 2).sum

section
variable {α : Type} [LinearOrderedField α]

/-- The sum of the `x` values. -/
def sX (data : List (α × α)) : α := (data.map fun p => p.1).sum

/-- The sum of the `y` values. -/
def sY (data : List (α × α)) : α := (data.map fun p => p.2).sum

/-- The sum of the squares `x * x`. -/
def sXX (data : List (α × α)) : α := (data.map fun p => p.1 * p.1).sum

/-- The sum of the squares `y * y`. -/
def sYY (data : List (α × α)) : α := (data.map fun p => p.2 * p.2).sum

/-- The sum of the products `x * y`. -/
def sXY (data : List (α × α)) : α := (data.map fun p => p.1 * p.2).sum

end

-- ## heatmapUtils.js: colour maps

/-- One colour stop `[r, g, b]`. -/
abbrev Stop := Int × Int × Int

/-- A colour map: the array of its stops. -/
abbrev Colormap := List Stop

/-- The palette `colormaps.jet`. -/
def colormaps.jet : Colormap :=
  [(0, 0, 255), (0, 255, 255), (0, 255, 0), (255, 255, 0), (255, 0, 0)]

/-- The palette `colormaps.hot`, the default `colormap` argument of `getHeatmapColor`. -/
def colormaps.hot : Colormap :=
  [(0, 0, 0), (255, 0, 0), (255, 255, 0), (255, 255, 255)]

/-- The palette `colormaps.coolwarm`. -/
def colormaps.coolwarm : Colormap :=
  [(59, 76, 192), (221, 221, 221), (180, 4, 38)]

/-- The array read `arr[i]` at an integer index: `none` is `undefined`, the value of every
index below zero or past the end. -/
def arrayGet {β : Type} (arr : List β) (i : Int) : Option β :=
  if i < 0 then none else arr[i.toNat]?

/-- The call `Math.round(x)`: the nearest integer, halves rounded up. -/
def mathRound (x : ℚ) : Int := ⌊x + 1 / 2⌋

/-- The text of the degenerate branch: the channels of the stop joined by commas without
blanks, inside `rgb(` and `)`. -/
def cssRgbJoined (c : Stop) : String :=
  "rgb(" ++ toString c.1 ++ "," ++ toString c.2.1 ++ "," ++ toString c.2.2 ++ ")"

/-- The text of the interpolating branch, `rgb(r, g, b)`. -/
def cssRgb (r g b : Int) : String :=
  "rgb(" ++ toString r ++ ", " ++ toString g ++ ", " ++ toString b ++ ")"

/-- The function `getHeatmapColor(value, min, max, colormap)`.
When `max === min` it reads `colormap[colormap.length - 1]` and joins it; calling `.join` on
`undefined` raises a `TypeError`. Otherwise
`segment = Math.min(Math.floor(ratio * numSegments), numSegments - 1)` and the two array
destructurings `[r1, g1, b1] = colormap[segment]`, `[r2, g2, b2] = colormap[segment + 1]` raise
a `TypeError` when the element read is `undefined`. -/
def getHeatmapColor (value min max : ℚ) (colormap : Colormap) : Except JSError String :=
  if max = min then
    match arrayGet colormap ((colormap.length : Int) - 1) with
    | some c => Except.ok (cssRgbJoined c)
    | none => Except.error JSError.typeError
  else
    let ratio : ℚ := (value - min) / (max - min)
    let numSegments : Int := (colormap.length : Int) - 1
    let segment : Int := Min.min ⌊ratio * (numSegments : ℚ)⌋ (numSegments - 1)
    let localRatio : ℚ := ratio * (numSegments : ℚ) - (segment : ℚ)
    match arrayGet colormap segment, arrayGet colormap (segment + 1) with
    | some (r1, g1, b1), some (r2, g2, b2) =>
      let r := mathRound ((r1 : ℚ) + localRatio * ((r2 : ℚ) - (r1 : ℚ)))
      let g := mathRound ((g1 : ℚ) + localRatio * ((g2 : ℚ) - (g1 : ℚ)))
      let b := mathRound ((b1 : ℚ) + localRatio * ((b2 : ℚ) - (b1 : ℚ)))
      Except.ok (cssRgb r g b)
    | _, _ => Except.error JSError.typeError

/-
heatmapUtils.js: dates.

The built-in `Date` follows the ECMAScript day-number algorithms. Every `Date` built here is a
local midnight, so a `Date` is embedded as its local day number (days since 1 January 1970), and
local time is taken without offset changes.
-/

/-- The abstract operation `DaysInYear(y)`. -/
def daysInYear (y : Int) : Int :=
  if y % 4 ≠ 0 then 365
  else if y % 100 ≠ 0 then 366
  else if y % 400 ≠ 0 then 365
  else 366

/-- The abstract operation `DayFromYear(y)`: the day number of 1 January of year `y`. -/
def dayFromYear (y : Int) : Int :=
  365 * (y - 1970) + (y - 1969) / 4 - (y - 1901) / 100 + (y - 1601) / 400

/-- The abstract operation `YearFromTime` on day numbers: the largest `y` with
`dayFromYear y ≤ t`, found from the estimate `1970 + ⌊t / 365.2425⌋`, which is off by at most
one (`yearFromDay_spec`). -/
def yearFromDay (t : Int) : Int :=
  let y0 := 1970 + (400 * t) / 146097
  if dayFromYear (y0 + 1) ≤ t then y0 + 1
  else if dayFromYear y0 ≤ t then y0
  else y0 - 1

/-- One when year `y` has 366 days, zero otherwise. -/
def leapFlag (y : Int) : Int := if daysInYear y = 366 then 1 else 0

/-- The abstract operation `InLeapYear(t)`. -/
def inLeapYear (t : Int) : Int := leapFlag (yearFromDay t)

/-- The abstract operation `DayWithinYear(t)`. -/
def dayWithinYear (t : Int) : Int := t - dayFromYear (yearFromDay t)

/-- The table of `MonthFromTime`: the month (0 is January) of day `d` within a year. -/
def monthOfYearDay (d leap : Int) : Int :=
  if d < 31 then 0
  else if d < 59 + leap then 1
  else if d < 90 + leap then 2
  else if d < 120 + leap then 3
  else if d < 151 + leap then 4
  else if d < 181 + leap then 5
  else if d < 212 + leap then 6
  else if d < 243 + leap then 7
  else if d < 273 + leap then 8
  else if d < 304 + leap then 9
  else if d < 334 + leap then 10
  else 11

/-- The table of `DateFromTime`: the day of the month of day `d` within a year. -/
def dateOfYearDay (d leap : Int) : Int :=
  let m := monthOfYearDay d leap
  if m = 0 then d + 1
  else if m = 1 then d - 30
  else if m = 2 then d - 58 - leap
  else if m = 3 then d - 89 - leap
  else if m = 4 then d - 119 - leap
  else if m = 5 then d - 150 - leap
  else if m = 6 then d - 180 - leap
  else if m = 7 then d - 211 - leap
  else if m = 8 then d - 242 - leap
  else if m = 9 then d - 272 - leap
  else if m = 10 then d - 303 - leap
  else d - 333 - leap

/-- The abstract operation `MonthFromTime(t)`, which `getMonth()` returns. -/
def monthFromDay (t : Int) : Int := monthOfYearDay (dayWithinYear t) (inLeapYear t)

/-- The abstract operation `DateFromTime(t)`, which `getDate()` returns. -/
def dateFromDay (t : Int) : Int := dateOfYearDay (dayWithinYear t) (inLeapYear t)

/-- The number of days of the year before the first of month `mn` (0 is January). -/
def daysBeforeMonth (mn leap : Int) : Int :=
  if mn = 0 then 0
  else if mn = 1 then 31
  else if mn = 2 then 59 + leap
  else if mn = 3 then 90 + leap
  else if mn = 4 then 120 + leap
  else if mn = 5 then 151 + leap
  else if mn = 6 then 181 + leap
  else if mn = 7 then 212 + leap
  else if mn = 8 then 243 + leap
  else if mn = 9 then 273 + leap
  else if mn = 10 then 304 + leap
  else 334 + leap

/-- The abstract operation `MakeDay(year, month, date)`: the day number of the first of the
month, plus `date - 1`. -/
def makeDay (year month date : Int) : Int :=
  let ym := year + month / 12
  let mn := month % 12
  dayFromYear ym + daysBeforeMonth mn (leapFlag ym) + date - 1

/-- A `Date` object: `some t` holds the local day number `t`, `none` is an invalid date (time
value `NaN`). -/
abbrev JSDate := Option Int

/-- The abstract operation `TimeClip`: a time value more than 8.64e15 ms (100 000 000 days) from
the epoch becomes `NaN`. -/
def timeClip (day : Int) : JSDate :=
  if -100000000 ≤ day ∧ day ≤ 100000000 then some day else none

/-- The constructor call `new Date(year, monthIndex)`: a year from 0 to 99 is read as
`1900 + year`, and the day of the month defaults to 1. -/
def newDate (year monthIndex : Int) : JSDate :=
  let yr := if 0 ≤ year ∧ year ≤ 99 then 1900 + year else year
  timeClip (makeDay yr monthIndex 1)

/-- The method `date.setDate(dt)` for an integral `dt`: the day `dt` of the month the date is
in, days outside the month rolling over. An invalid date stays invalid. -/
def setDate (date : JSDate) (dt : Int) : JSDate :=
  match date with
  | none => none
  | some t => timeClip (makeDay (yearFromDay t) (monthFromDay t) dt)

/-- The function `getDateFromDayOfYear(year, dayOfYear)`: `const date = new Date(year, 0);
date.setDate(dayOfYear); return date;`. -/
def getDateFromDayOfYear (year dayOfYear : Int) : JSDate :=
  let date := newDate year 0
  setDate date dayOfYear

/-- The two locales `formatDateString` passes to `toLocaleDateString`. -/
inductive DateLocale where
  | enUS
  | jaJP
deriving DecidableEq

/-- The abbreviated English month names of the `en-US` locale. -/
def monthShort (m : Int) : String :=
  if m = 0 then "Jan"
  else if m = 1 then "Feb"
  else if m = 2 then "Mar"
  else if m = 3 then "Apr"
  else if m = 4 then "May"
  else if m = 5 then "Jun"
  else if m = 6 then "Jul"
  else if m = 7 then "Aug"
  else if m = 8 then "Sep"
  else if m = 9 then "Oct"
  else if m = 10 then "Nov"
  else "Dec"

/-- The year number the platform prints for the option year numeric: the year of the era, which
is the year itself from year 1 on and `1 - y` for the years before (the year -1 prints as 2). -/
def eraYear (y : Int) : Int := if 1 ≤ y then y else 1 - y

/-- The method `date.toLocaleDateString(locale, options)` with the options month short and day
numeric and, when `includeYear` holds, year numeric. The texts are those of the locale data of
the platform, which is not part of the repository: `Feb 1` and `Feb 1, 2024` for `en-US`,
`2月1日` and `2024年2月1日` for `ja-JP`, and `Invalid Date` for an invalid date. -/
def toLocaleDateString (date : JSDate) (locale : DateLocale) (includeYear : Bool) : String :=
  match date with
  | none => "Invalid Date"
  | some t =>
    match locale with
    | DateLocale.enUS =>
      monthShort (monthFromDay t) ++ " " ++ toString (dateFromDay t)
        ++ (if includeYear then ", " ++ toString (eraYear (yearFromDay t)) else "")
    | DateLocale.jaJP =>
      (if includeYear then toString (eraYear (yearFromDay t)) ++ "年" else "")
        ++ toString (monthFromDay t + 1) ++ "月" ++ toString (dateFromDay t) ++ "日"

/-- The function `formatDateString(date, language, includeYear)`: the locale is `en-US` when
`language` is `en` and `ja-JP` otherwise. -/
def formatDateString (date : JSDate) (language : String) (includeYear : Bool) : String :=
  let locale := if language = "en" then DateLocale.enUS else DateLocale.jaJP
  toLocaleDateString date locale includeYear

-- ## The calendar, stated independently of day numbers

/-- A date of the proleptic Gregorian calendar; months count from 1. -/
structure CalendarDate where
  year : Int
  month : Int
  day : Int
deriving DecidableEq

/-- The calendar fields of a valid `Date`: `getFullYear()`, `getMonth() + 1`, `getDate()`. -/
def calendarDate (t : Int) : CalendarDate :=
  { year := yearFromDay t, month := monthFromDay t + 1, day := dateFromDay t }

/-- The Gregorian leap-year rule. -/
def isLeapYear (y : Int) : Bool :=
  decide (y % 4 = 0) && (decide (y % 100 ≠ 0) || decide (y % 400 = 0))

/-- The number of days of month `m` (1 is January) of year `y`. -/
def daysInMonth (y m : Int) : Int :=
  if m = 2 then (if isLeapYear y then 29 else 28)
  else if m = 4 ∨ m = 6 ∨ m = 9 ∨ m = 11 then 30
  else 31

/-- The day after a calendar date, rolling over the end of the month and of the year. -/
def nextDay (c : CalendarDate) : CalendarDate :=
  if c.day < daysInMonth c.year c.month then { c with day := c.day + 1 }
  else if c.month < 12 then { year := c.year, month := c.month + 1, day := 1 }
  else { year := c.year + 1, month := 1, day := 1 }

/-- The calendar date `n` days after `c`. -/
def daysAfter (c : CalendarDate) (n : Nat) : CalendarDate := nextDay^[n] c

-- ## ColorBar.jsx: the colour bar gradient

/-- The array `stops` of `colormapToCSSGradient(colormap)`: for the stop at index `i` the colour
text `rgb(r, g, b)` and the number `pct = (i / (n - 1)) * 100` with `n = colormap.length`. With
a single stop the quotient is `0 / 0`, a `NaN`. -/
def colormapToCSSGradient.stops (colormap : Colormap) : List (String × JSNum ℚ) :=
  let n := colormap.length
  colormap.mapIdx fun i color =>
    let pct := JSNum.mul (jsDiv (i : ℚ) ((n : ℚ) - 1)) (JSNum.finite 100)
    (cssRgb color.1 color.2.1 color.2.2, pct)

/-- The function `colormapToCSSGradient(colormap)`: each stop is rendered as its colour text, a
blank, the text of `pct` and a percent sign, and the stops are joined by a comma and a blank
inside `linear-gradient(to right, ` and `)`. The text JavaScript prints for the number `pct` is
a parameter. -/
def colormapToCSSGradient (numberText : JSNum ℚ → String) (colormap : Colormap) : String :=
  "linear-gradient(to right, "
    ++ ", ".intercalate
        ((colormapToCSSGradient.stops colormap).map fun s => s.1 ++ " " ++ numberText s.2 ++ "%")
    ++ ")"

-- ## fillMissingYears

/-- The lookup is `undefined` exactly for the years without an entry. -/
theorem yearMap_eq_none_iff {α : Type} (data : List (Sample α)) (k : Int) :
    yearMap data k = none ↔ k ∉ data.map Sample.x := by
  induction data with
  | nil => simp [yearMap]
  | cons d ds ih =>
    simp only [yearMap, List.map_cons, List.mem_cons, not_or]
    cases h : yearMap ds k with
    | some v =>
      have hk : ¬ (k ∉ ds.map Sample.x) := fun hk => by simp [ih.mpr hk] at h
      simp only [reduceCtorEq, false_iff, not_and]
      exact fun _ => hk
    | none =>
      have hk := ih.mp h
      by_cases hx : k = d.x
      · simp [hx]
      · simp only [hx, if_false, true_iff, not_false_eq_true, true_and]
        exact hk

/-- With distinct years the lookup of the year of an entry is the value of that entry. -/
theorem yearMap_of_mem {α : Type} (data : List (Sample α))
    (hnd : (data.map Sample.x).Nodup) (s : Sample α) (hs : s ∈ data) :
    yearMap data s.x = some s.y := by
  induction data with
  | nil => simp at hs
  | cons d ds ih =>
    simp only [List.map_cons, List.nodup_cons] at hnd
    rcases List.mem_cons.mp hs with rfl | hmem
    · have : yearMap ds s.x = none := (yearMap_eq_none_iff ds s.x).mpr hnd.1
      simp [yearMap, this]
    · simp [yearMap, ih hnd.2 hmem]

theorem int_min?_eq_some_iff (xs : List Int) (a : Int) :
    xs.min? = some a ↔ a ∈ xs ∧ ∀ b ∈ xs, a ≤ b :=
  haveI : Std.Antisymm (fun (x1 x2 : Int) => x1 ≤ x2) := ⟨fun h1 h2 => le_antisymm h1 h2⟩
  List.min?_eq_some_iff (fun a => le_refl a) (fun a b => min_choice a b)
    (fun _ _ _ => le_min_iff)

theorem int_max?_eq_some_iff (xs : List Int) (a : Int) :
    xs.max? = some a ↔ a ∈ xs ∧ ∀ b ∈ xs, b ≤ a :=
  haveI : Std.Antisymm (fun (x1 x2 : Int) => x1 ≤ x2) := ⟨fun h1 h2 => le_antisymm h1 h2⟩
  List.max?_eq_some_iff (fun a => le_refl a) (fun a b => max_choice a b)
    (fun _ _ _ => max_le_iff)

/-- The filled series, given the least and the greatest input year. -/
theorem fillMissingYears_eq {α : Type} (data : List (Sample α)) (lo hi : Int)
    (hlo : (data.map Sample.x).min? = some lo) (hhi : (data.map Sample.x).max? = some hi) :
    fillMissingYears data =
      (List.range (hi + 1 - lo).toNat).map fun (i : Nat) =>
        { x := lo + (i : Int), y := (yearMap data (lo + (i : Int))).getD none } := by
  unfold fillMissingYears
  simp only [hlo, hhi]
  apply List.map_congr_left
  intro i _
  cases yearMap data (lo + (i : Int)) <;> rfl

theorem exists_min_max {α : Type} (data : List (Sample α)) (hne : data ≠ []) :
    ∃ lo hi : Int, (data.map Sample.x).min? = some lo ∧ (data.map Sample.x).max? = some hi := by
  cases data with
  | nil => exact absurd rfl hne
  | cons d ds => 
    exact ⟨_, _, by rw [List.map_cons, List.min?_cons'], by rw [List.map_cons, List.max?_cons']⟩

/-- C1. For a non-empty series with distinct integer years, `fillMissingYears` returns the years
`lo, lo + 1, ..., hi` in ascending order, where `lo` and `hi` are the least and the greatest
input year, so `hi - lo + 1` entries; an entry whose year is in the input carries the `y` of the
input, and an entry whose year is not in the input carries `null`. -/
theorem fillMissingYears_dense {α : Type} (data : List (Sample α)) (hne : data ≠ [])
    (hnd : (data.map Sample.x).Nodup) :
    ∃ lo hi : Int,
      (lo ∈ data.map Sample.x ∧ ∀ s ∈ data, lo ≤ s.x) ∧
      (hi ∈ data.map Sample.x ∧ ∀ s ∈ data, s.x ≤ hi) ∧
      (fillMissingYears data).map Sample.x
        = (List.range (hi - lo + 1).toNat).map (fun (i : Nat) => lo + (i : Int)) ∧
      ((fillMissingYears data).length : Int) = hi - lo + 1 ∧
      (fillMissingYears data).Pairwise (fun e e' => e.x < e'.x) ∧
      (∀ e ∈ fillMissingYears data, ∀ s ∈ data, s.x = e.x → e.y = s.y) ∧
      (∀ e ∈ fillMissingYears data, e.x ∉ data.map Sample.x → e.y = none) := by
  obtain ⟨lo, hi, hlo, hhi⟩ := exists_min_max data hne
  have hlo' := (int_min?_eq_some_iff _ _).mp hlo
  have hhi' := (int_max?_eq_some_iff _ _).mp hhi
  have hle : lo ≤ hi := hhi'.2 lo hlo'.1
  have heq := fillMissingYears_eq data lo hi hlo hhi
  have hsub : hi + 1 - lo = hi - lo + 1 := by ring
  refine ⟨lo, hi, ⟨hlo'.1, fun s hs => hlo'.2 _ (List.mem_map_of_mem _ hs)⟩,
    ⟨hhi'.1, fun s hs => hhi'.2 _ (List.mem_map_of_mem _ hs)⟩, ?_, ?_, ?_, ?_, ?_⟩
  · rw [heq, hsub, List.map_map]; rfl
  · rw [heq, List.length_map, List.length_range, hsub]
    exact Int.toNat_of_nonneg (by omega)
  · rw [heq, List.pairwise_map]
    refine (List.pairwise_lt_range _).imp ?_
    intro a b hab
    show lo + (a : Int) < lo + (b : Int)
    omega
  · intro e he s hs hx
    rw [heq, List.mem_map] at he
    obtain ⟨i, _, rfl⟩ := he
    simp only at hx ⊢
    rw [← hx, yearMap_of_mem data hnd s hs]; rfl
  · intro e he hx
    rw [heq, List.mem_map] at he
    obtain ⟨i, _, rfl⟩ := he
    simp only at hx ⊢
    rw [(yearMap_eq_none_iff data _).mpr hx]; rfl

/-- C1, witness: the series `(2001, 10), (2004, 20)` fills to
`(2001, 10), (2002, null), (2003, null), (2004, 20)`. -/
theorem fillMissingYears_dense_witness :
    ([⟨2001, some 10⟩, ⟨2004, some 20⟩] : List (Sample ℚ)) ≠ [] ∧
    (([⟨2001, some 10⟩, ⟨2004, some 20⟩] : List (Sample ℚ)).map Sample.x).Nodup ∧
    fillMissingYears ([⟨2001, some 10⟩, ⟨2004, some 20⟩] : List (Sample ℚ))
      = [⟨2001, some 10⟩, ⟨2002, none⟩, ⟨2003, none⟩, ⟨2004, some 20⟩] ∧
    ∃ lo hi : Int,
      (lo ∈ ([⟨2001, some 10⟩, ⟨2004, some 20⟩] : List (Sample ℚ)).map Sample.x ∧
        ∀ s ∈ ([⟨2001, some 10⟩, ⟨2004, some 20⟩] : List (Sample ℚ)), lo ≤ s.x) ∧
      (hi ∈ ([⟨2001, some 10⟩, ⟨2004, some 20⟩] : List (Sample ℚ)).map Sample.x ∧
        ∀ s ∈ ([⟨2001, some 10⟩, ⟨2004, some 20⟩] : List (Sample ℚ)), s.x ≤ hi) ∧
      (fillMissingYears ([⟨2001, some 10⟩, ⟨2004, some 20⟩] : List (Sample ℚ))).map Sample.x
        = (List.range (hi - lo + 1).toNat).map (fun (i : Nat) => lo + (i : Int)) ∧
      ((fillMissingYears ([⟨2001, some 10⟩, ⟨2004, some 20⟩] : List (Sample ℚ))).length : Int)
        = hi - lo + 1 ∧
      (fillMissingYears ([⟨2001, some 10⟩, ⟨2004, some 20⟩] : List (Sample ℚ))).Pairwise
        (fun e e' => e.x < e'.x) ∧
      (∀ e ∈ fillMissingYears ([⟨2001, some 10⟩, ⟨2004, some 20⟩] : List (Sample ℚ)),
        ∀ s ∈ ([⟨2001, some 10⟩, ⟨2004, some 20⟩] : List (Sample ℚ)), s.x = e.x → e.y = s.y) ∧
      (∀ e ∈ fillMissingYears ([⟨2001, some 10⟩, ⟨2004, some 20⟩] : List (Sample ℚ)),
        e.x ∉ ([⟨2001, some 10⟩, ⟨2004, some 20⟩] : List (Sample ℚ)).map Sample.x → e.y = none) :=
  ⟨by decide, by decide, by decide,
    fillMissingYears_dense _ (by decide) (by decide)⟩

-- ## getLinearRegressionAndR: sums, spread of the x values, collinear samples, least squares

section
variable {α : Type} [LinearOrderedField α]

/-- The accumulation loop adds the five sums of the samples to its start values. -/
theorem foldl_sums (data : List (α × α)) (s0 : Sums α) :
    data.foldl
      (fun s d =>
        ({ sumX := s.sumX + d.1
           sumY := s.sumY + d.2
           sumXX := s.sumXX + d.1 * d.1
           sumYY := s.sumYY + d.2 * d.2
           sumXY := s.sumXY + d.1 * d.2 } : Sums α)) s0
    = { sumX := s0.sumX + sX data
        sumY := s0.sumY + sY data
        sumXX := s0.sumXX + sXX data
        sumYY := s0.sumYY + sYY data
        sumXY := s0.sumXY + sXY data } := by
  induction data generalizing s0 with
  | nil => simp [sX, sY, sXX, sYY, sXY]
  | cons d ds ih =>
    rw [List.foldl_cons, ih]
    simp [sX, sY, sXX, sYY, sXY, add_assoc]

theorem accumulate_eq (data : List (α × α)) :
    accumulate data
      = { sumX := sX data, sumY := sY data, sumXX := sXX data, sumYY := sYY data,
          sumXY := sXY data } := by
  unfold accumulate
  rw [foldl_sums]
  simp

theorem sum_sq_diff (data : List (α × α)) (x : α) :
    (data.map fun p => (x - p.1) ^ 2).sum
      = (data.length : α) * x ^ 2 - 2 * x * sX data + sXX data := by
  induction data with
  | nil => simp [sX, sXX]
  | cons d ds ih =>
    simp only [List.map_cons, List.sum_cons, List.length_cons, sX, sXX] at ih ⊢
    rw [ih]; push_cast; ring

/-- Adding a sample adds its squared distances to the others to `n * sXX - sX * sX`. -/
theorem xSpread_cons (d : α × α) (ds : List (α × α)) :
    ((d :: ds).length : α) * sXX (d :: ds) - sX (d :: ds) * sX (d :: ds)
      = ((ds.length : α) * sXX ds - sX ds * sX ds)
        + (ds.map fun p => (d.1 - p.1) ^ 2).sum := by
  rw [sum_sq_diff]
  simp only [List.map_cons, List.sum_cons, List.length_cons, sX, sXX]
  push_cast; ring

theorem xSpread_nonneg (data : List (α × α)) :
    0 ≤ (data.length : α) * sXX data - sX data * sX data := by
  induction data with
  | nil => simp [sX, sXX]
  | cons d ds ih =>
    rw [xSpread_cons]
    have : 0 ≤ (ds.map fun p => (d.1 - p.1) ^ 2).sum :=
      List.sum_nonneg (by
        intro v hv
        obtain ⟨p, _, rfl⟩ := List.mem_map.mp hv
        positivity)
    linarith

theorem sum_sq_diff_pos (ds : List (α × α)) (x : α) (h : ∃ p ∈ ds, x ≠ p.1) :
    0 < (ds.map fun p => (x - p.1) ^ 2).sum := by
  induction ds with
  | nil => obtain ⟨p, hp, _⟩ := h; simp at hp
  | cons d ds ih =>
    simp only [List.map_cons, List.sum_cons]
    have hrest : 0 ≤ (ds.map fun p => (x - p.1) ^ 2).sum :=
      List.sum_nonneg (by
        intro v hv
        obtain ⟨p, _, rfl⟩ := List.mem_map.mp hv
        positivity)
    obtain ⟨p, hp, hne⟩ := h
    rcases List.mem_cons.mp hp with rfl | hmem
    · have : 0 < (x - p.1) ^ 2 := by
        have : x - p.1 ≠ 0 := sub_ne_zero.mpr hne
        positivity
      linarith
    · have := ih ⟨p, hmem, hne⟩
      have : 0 ≤ (x - d.1) ^ 2 := by positivity
      linarith

/-- The denominator of the slope is positive when two `x` values differ. -/
theorem xSpread_pos (data : List (α × α)) (h : ∃ p ∈ data, ∃ q ∈ data, p.1 ≠ q.1) :
    0 < (data.length : α) * sXX data - sX data * sX data := by
  induction data with
  | nil => obtain ⟨p, hp, _⟩ := h; simp at hp
  | cons d ds ih =>
    rw [xSpread_cons]
    have h0 := xSpread_nonneg ds
    have hsq : 0 ≤ (ds.map fun p => (d.1 - p.1) ^ 2).sum :=
      List.sum_nonneg (by
        intro v hv
        obtain ⟨p, _, rfl⟩ := List.mem_map.mp hv
        positivity)
    by_cases hd : ∃ p ∈ ds, d.1 ≠ p.1
    · have := sum_sq_diff_pos ds d.1 hd
      linarith
    · push_neg at hd
      have : ∃ p ∈ ds, ∃ q ∈ ds, p.1 ≠ q.1 := by
        obtain ⟨p, hp, q, hq, hne⟩ := h
        rcases List.mem_cons.mp hp with rfl | hp' <;> rcases List.mem_cons.mp hq with rfl | hq'
        · exact absurd rfl hne
        · exact absurd (hd q hq') hne
        · exact absurd (hd p hp').symm hne
        · exact ⟨p, hp', q, hq', hne⟩
      have := ih this
      linarith

end

section
variable {α : Type} [LinearOrderedField α]
theorem sumSquaredResiduals_eq (data : List (α × α)) (a b : α) :
    sumSquaredResiduals data a b
      = sYY data - 2 * a * sXY data - 2 * b * sY data + a ^ 2 * sXX data
          + 2 * a * b * sX data + (data.length : α) * b ^ 2 := by
  induction data with
  | nil => simp [sumSquaredResiduals, sX, sY, sXX, sYY, sXY]
  | cons d ds ih =>
    simp only [sumSquaredResiduals, sX, sY, sXX, sYY, sXY, List.map_cons, List.sum_cons,
      List.length_cons] at *
    rw [ih]
    push_cast
    ring
end

section
variable {α : Type} [LinearOrderedField α]

/-- The result of `getLinearRegressionAndR` in terms of the five sums. -/
theorem getLinearRegressionAndR_eq (sqrt : α → α) (data : List (α × α)) :
    getLinearRegressionAndR sqrt data
      = Except.ok
          { slope := jsDiv ((data.length : α) * sXY data - sX data * sY data)
              ((data.length : α) * sXX data - sX data * sX data)
            intercept :=
              JSNum.div
                (JSNum.sub (JSNum.finite (sY data))
                  (JSNum.mul
                    (jsDiv ((data.length : α) * sXY data - sX data * sY data)
                      ((data.length : α) * sXX data - sX data * sX data))
                    (JSNum.finite (sX data))))
                (JSNum.finite (data.length : α))
            r :=
              JSNum.div
                (JSNum.finite ((data.length : α) * sXY data - sX data * sY data))
                (jsSqrt sqrt
                  (((data.length : α) * sXX data - sX data * sX data)
                    * ((data.length : α) * sYY data - sY data * sY data))) } := by
  unfold getLinearRegressionAndR
  simp only [accumulate_eq]

/-- The sums of samples on the line `y = a * x + b`. -/
theorem collinear_sums (data : List (α × α)) (a b : α)
    (hline : ∀ p ∈ data, p.2 = a * p.1 + b) :
    sY data = a * sX data + (data.length : α) * b
      ∧ sXY data = a * sXX data + b * sX data
      ∧ sYY data = a ^ 2 * sXX data + 2 * a * b * sX data + (data.length : α) * b ^ 2 := by
  induction data with
  | nil => simp [sX, sY, sXX, sYY, sXY]
  | cons d ds ih =>
    obtain ⟨h1, h2, h3⟩ := ih (fun p hp => hline p (List.mem_cons_of_mem _ hp))
    have hd := hline d (List.mem_cons_self _ _)
    simp only [sX, sY, sXX, sYY, sXY, List.map_cons, List.sum_cons, List.length_cons] at *
    rw [h1, h2, h3, hd]
    push_cast
    refine ⟨by ring, by ring, by ring⟩

end

/-- C2. For two or more samples that all lie on the line `y = a * x + b` and have two distinct
`x` values, `getLinearRegressionAndR` (over the reals) returns slope `a` and intercept `b`, and
`r = 1` when `a > 0`, `r = -1` when `a < 0`. -/
theorem getLinearRegressionAndR_collinear (data : List (ℝ × ℝ)) (a b : ℝ)
    (hn : 2 ≤ data.length) (hline : ∀ p ∈ data, p.2 = a * p.1 + b)
    (hx : ∃ p ∈ data, ∃ q ∈ data, p.1 ≠ q.1) :
    ∃ res : TrendResult ℝ,
      getLinearRegressionAndR Real.sqrt data = Except.ok res
        ∧ res.slope = JSNum.finite a ∧ res.intercept = JSNum.finite b
        ∧ (0 < a → res.r = JSNum.finite 1) ∧ (a < 0 → res.r = JSNum.finite (-1)) := by
  have hD := xSpread_pos data hx
  obtain ⟨h1, h2, h3⟩ := collinear_sums data a b hline
  have hn0 : (data.length : ℝ) ≠ 0 := by
    have : (2 : ℝ) ≤ (data.length : ℝ) := by exact_mod_cast hn
    linarith
  set n : ℝ := (data.length : ℝ) with hndef
  set D : ℝ := n * sXX data - sX data * sX data with hDdef
  have hnum : n * sXY data - sX data * sY data = a * D := by rw [h1, h2, hDdef]; ring
  have hE : n * sYY data - sY data * sY data = a ^ 2 * D := by rw [h1, h3, hDdef]; ring
  have hslope : jsDiv (n * sXY data - sX data * sY data) D = JSNum.finite a := by
    rw [hnum, jsDiv, if_neg hD.ne']
    congr 1
    field_simp
  have hint : jsDiv (sY data - a * sX data) n = JSNum.finite b := by
    rw [h1, jsDiv, if_neg hn0]
    congr 1
    field_simp
  have hprod : D * (n * sYY data - sY data * sY data) = (|a| * D) ^ 2 := by
    rw [hE, mul_pow, sq_abs]; ring
  have hsqrt : jsSqrt Real.sqrt (D * (n * sYY data - sY data * sY data)) = JSNum.finite (|a| * D) := by
    rw [hprod, jsSqrt, if_neg (not_lt.mpr (sq_nonneg _)),
      Real.sqrt_sq (mul_nonneg (abs_nonneg a) hD.le)]
  refine ⟨_, getLinearRegressionAndR_eq Real.sqrt data, ?_, ?_, ?_, ?_⟩
  · exact hslope
  · show JSNum.div (JSNum.sub _ (JSNum.mul (jsDiv (n * sXY data - sX data * sY data) D) _)) _
      = JSNum.finite b
    rw [hslope]; exact hint
  · intro ha
    show JSNum.div _ (jsSqrt Real.sqrt (D * (n * sYY data - sY data * sY data))) = JSNum.finite 1
    rw [hsqrt, hnum, abs_of_pos ha]
    show jsDiv (a * D) (a * D) = JSNum.finite 1
    have : a * D ≠ 0 := (mul_pos ha hD).ne'
    rw [jsDiv, if_neg this, div_self this]
  · intro ha
    show JSNum.div _ (jsSqrt Real.sqrt (D * (n * sYY data - sY data * sY data)))
      = JSNum.finite (-1)
    rw [hsqrt, hnum, abs_of_neg ha]
    show jsDiv (a * D) (-a * D) = JSNum.finite (-1)
    have : -a * D ≠ 0 := (mul_pos (neg_pos.mpr ha) hD).ne'
    have h0 : a * D ≠ 0 := (mul_neg_of_neg_of_pos ha hD).ne
    rw [jsDiv, if_neg this, neg_mul, div_neg, div_self h0]

/-- C2, witness: the samples `(1, 2), (2, 4), (3, 6)` give slope 2, intercept 0 and `r = 1`. -/
theorem getLinearRegressionAndR_collinear_witness :
    2 ≤ ([(1, 2), (2, 4), (3, 6)] : List (ℝ × ℝ)).length
      ∧ (∀ p ∈ ([(1, 2), (2, 4), (3, 6)] : List (ℝ × ℝ)), p.2 = 2 * p.1 + 0)
      ∧ (∃ p ∈ ([(1, 2), (2, 4), (3, 6)] : List (ℝ × ℝ)),
          ∃ q ∈ ([(1, 2), (2, 4), (3, 6)] : List (ℝ × ℝ)), p.1 ≠ q.1)
      ∧ getLinearRegressionAndR Real.sqrt [(1, 2), (2, 4), (3, 6)]
          = Except.ok { slope := JSNum.finite 2, intercept := JSNum.finite 0, r := JSNum.finite 1 } := by
  have hline : ∀ p ∈ ([(1, 2), (2, 4), (3, 6)] : List (ℝ × ℝ)), p.2 = 2 * p.1 + 0 := by
    intro p hp
    simp only [List.mem_cons, List.mem_singleton, List.not_mem_nil, or_false] at hp
    rcases hp with rfl | rfl | rfl <;> norm_num
  have hx : ∃ p ∈ ([(1, 2), (2, 4), (3, 6)] : List (ℝ × ℝ)),
      ∃ q ∈ ([(1, 2), (2, 4), (3, 6)] : List (ℝ × ℝ)), p.1 ≠ q.1 :=
    ⟨(1, 2), by simp, (2, 4), by simp, by norm_num⟩
  refine ⟨by simp, hline, hx, ?_⟩
  obtain ⟨res, hres, hs, hi, hr, _⟩ :=
    getLinearRegressionAndR_collinear [(1, 2), (2, 4), (3, 6)] 2 0 (by simp) hline hx
  rw [hres]
  cases res
  simp only at hs hi hr
  rw [hs, hi, hr (by norm_num)]

/-- The excess of the squared residuals of a line over those of the fitted line, times `n`, is a
sum of two squares. -/
theorem ols_gap (n Sx Sy Sxx Sxy Syy m c a b : ℝ) (e1 : n * c = Sy - m * Sx)
    (e2 : m * (n * Sxx - Sx * Sx) = n * Sxy - Sx * Sy) :
    n * ((Syy - 2 * a * Sxy - 2 * b * Sy + a ^ 2 * Sxx + 2 * a * b * Sx + n * b ^ 2)
          - (Syy - 2 * m * Sxy - 2 * c * Sy + m ^ 2 * Sxx + 2 * m * c * Sx + n * c ^ 2))
      = (n * (c - b) + (m - a) * Sx) ^ 2 + (m - a) ^ 2 * (n * Sxx - Sx * Sx) := by
  linear_combination (-2 * (m - a) * Sx - 2 * (c - b) * n) * e1 + (-2 * (m - a)) * e2

/-- C3. For two or more samples with two distinct `x` values, the slope and intercept returned
by `getLinearRegressionAndR` (over the reals) are finite and minimise the sum of squared
residuals: no line `y = a * x + b` has a smaller sum. -/
theorem getLinearRegressionAndR_least_squares (data : List (ℝ × ℝ))
    (hn : 2 ≤ data.length) (hx : ∃ p ∈ data, ∃ q ∈ data, p.1 ≠ q.1) :
    ∃ (res : TrendResult ℝ) (slope intercept : ℝ),
      getLinearRegressionAndR Real.sqrt data = Except.ok res
        ∧ res.slope = JSNum.finite slope ∧ res.intercept = JSNum.finite intercept
        ∧ ∀ a b : ℝ,
            sumSquaredResiduals data slope intercept ≤ sumSquaredResiduals data a b := by
  have hD := xSpread_pos data hx
  have hn0 : (0 : ℝ) < (data.length : ℝ) := by
    have : (2 : ℝ) ≤ (data.length : ℝ) := by exact_mod_cast hn
    linarith
  obtain ⟨m, hm⟩ : ∃ m : ℝ, m = ((data.length : ℝ) * sXY data - sX data * sY data)
      / ((data.length : ℝ) * sXX data - sX data * sX data) := ⟨_, rfl⟩
  obtain ⟨c, hc⟩ : ∃ c : ℝ, c = (sY data - m * sX data) / (data.length : ℝ) := ⟨_, rfl⟩
  have hslope : jsDiv ((data.length : ℝ) * sXY data - sX data * sY data)
      ((data.length : ℝ) * sXX data - sX data * sX data) = JSNum.finite m := by
    rw [jsDiv, if_neg hD.ne', hm]
  have hint : jsDiv (sY data - m * sX data) (data.length : ℝ) = JSNum.finite c := by
    rw [jsDiv, if_neg hn0.ne', hc]
  refine ⟨_, m, c, getLinearRegressionAndR_eq Real.sqrt data, hslope, ?_, ?_⟩
  · show JSNum.div (JSNum.sub _ (JSNum.mul
      (jsDiv ((data.length : ℝ) * sXY data - sX data * sY data)
        ((data.length : ℝ) * sXX data - sX data * sX data)) _)) _ = JSNum.finite c
    rw [hslope]; exact hint
  · intro a b
    rw [sumSquaredResiduals_eq, sumSquaredResiduals_eq]
    have e1 : (data.length : ℝ) * c = sY data - m * sX data := by
      rw [hc]; field_simp
    have e2 : m * ((data.length : ℝ) * sXX data - sX data * sX data)
        = (data.length : ℝ) * sXY data - sX data * sY data := by
      rw [hm]; field_simp
    have key := ols_gap (data.length : ℝ) (sX data) (sY data) (sXX data) (sXY data)
      (sYY data) m c a b e1 e2
    have hq : 0 ≤ ((data.length : ℝ) * (c - b) + (m - a) * sX data) ^ 2
        + (m - a) ^ 2 * ((data.length : ℝ) * sXX data - sX data * sX data) := by
      have := mul_nonneg (sq_nonneg (m - a)) hD.le
      have := sq_nonneg ((data.length : ℝ) * (c - b) + (m - a) * sX data)
      linarith
    rw [← key] at hq
    have := nonneg_of_mul_nonneg_right hq hn0
    linarith

/-- C3, witness: the samples `(0, 0), (1, 1), (2, 1)`, which lie on no line. -/
theorem getLinearRegressionAndR_least_squares_witness :
    2 ≤ ([(0, 0), (1, 1), (2, 1)] : List (ℝ × ℝ)).length
      ∧ (∃ p ∈ ([(0, 0), (1, 1), (2, 1)] : List (ℝ × ℝ)),
          ∃ q ∈ ([(0, 0), (1, 1), (2, 1)] : List (ℝ × ℝ)), p.1 ≠ q.1)
      ∧ ∃ (res : TrendResult ℝ) (slope intercept : ℝ),
          getLinearRegressionAndR Real.sqrt [(0, 0), (1, 1), (2, 1)] = Except.ok res
            ∧ res.slope = JSNum.finite slope ∧ res.intercept = JSNum.finite intercept
            ∧ ∀ a b : ℝ,
                sumSquaredResiduals [(0, 0), (1, 1), (2, 1)] slope intercept
                  ≤ sumSquaredResiduals [(0, 0), (1, 1), (2, 1)] a b :=
  ⟨by simp, ⟨(0, 0), by simp, (1, 1), by simp, by norm_num⟩,
    getLinearRegressionAndR_least_squares [(0, 0), (1, 1), (2, 1)] (by simp)
      ⟨(0, 0), by simp, (1, 1), by simp, by norm_num⟩⟩

-- ## getLinearRegressionAndR on degenerate input

section
variable {α : Type} [LinearOrderedField α]

theorem const_x_sums (data : List (α × α)) (x0 : α) (h : ∀ p ∈ data, p.1 = x0) :
    sX data = (data.length : α) * x0 ∧ sXX data = (data.length : α) * (x0 * x0)
      ∧ sXY data = x0 * sY data := by
  induction data with
  | nil => simp [sX, sY, sXX, sXY]
  | cons d ds ih =>
    obtain ⟨h1, h2, h3⟩ := ih (fun p hp => h p (List.mem_cons_of_mem _ hp))
    have hd := h d (List.mem_cons_self _ _)
    simp only [sX, sY, sXX, sXY, List.map_cons, List.sum_cons, List.length_cons] at *
    rw [h1, h2, h3, hd]
    push_cast
    refine ⟨by ring, by ring, by ring⟩

/-- The denominator of the slope is zero when all `x` values are equal. -/
theorem xSpread_zero_of_equal (data : List (α × α))
    (h : ∀ p ∈ data, ∀ q ∈ data, p.1 = q.1) :
    (data.length : α) * sXX data - sX data * sX data = 0 := by
  cases data with
  | nil => simp [sX, sXX]
  | cons d ds =>
    obtain ⟨h1, h2, _⟩ := const_x_sums (d :: ds) d.1
      (fun p hp => h p hp d (List.mem_cons_self _ _))
    rw [h1, h2]; ring

/-- The numerator of the slope and of `r` is zero when all `x` values are equal. -/
theorem numerator_zero_of_equal (data : List (α × α))
    (h : ∀ p ∈ data, ∀ q ∈ data, p.1 = q.1) :
    (data.length : α) * sXY data - sX data * sY data = 0 := by
  cases data with
  | nil => simp [sX, sXY]
  | cons d ds =>
    obtain ⟨h1, _, h3⟩ := const_x_sums (d :: ds) d.1
      (fun p hp => h p hp d (List.mem_cons_self _ _))
    rw [h1, h3]; ring

theorem equal_of_length_lt_two {β : Type} (l : List β) (h : l.length < 2) :
    ∀ p ∈ l, ∀ q ∈ l, p = q := by
  match l, h with
  | [], _ => intro p hp; simp at hp
  | [a], _ =>
    intro p hp q hq
    simp only [List.mem_singleton] at hp hq
    rw [hp, hq]
  | _ :: _ :: _, h => simp at h; omega

end

/-- C4, as the code behaves, in exact arithmetic. `getLinearRegressionAndR` has no check of its
input and returns a result for every list of samples. With fewer than two samples, or with all
`x` equal, the slope is `0 / 0`, a `NaN`, the intercept is computed from that `NaN` and is
`NaN`, and `r` is `0 / 0`, a `NaN`. With two distinct `x` values and all `y` equal to `c`, the
slope is 0, the intercept is `c` and `r` is `0 / 0`, a `NaN`. -/
theorem getLinearRegressionAndR_degenerate (data : List (ℝ × ℝ)) :
    ∃ res : TrendResult ℝ,
      getLinearRegressionAndR Real.sqrt data = Except.ok res
        ∧ ((data.length < 2 ∨ ∀ p ∈ data, ∀ q ∈ data, p.1 = q.1) →
            res = { slope := JSNum.nan, intercept := JSNum.nan, r := JSNum.nan })
        ∧ ∀ c : ℝ, (∃ p ∈ data, ∃ q ∈ data, p.1 ≠ q.1) → (∀ p ∈ data, p.2 = c) →
            res = { slope := JSNum.finite 0, intercept := JSNum.finite c, r := JSNum.nan } := by
  refine ⟨_, getLinearRegressionAndR_eq Real.sqrt data, ?_, ?_⟩
  · intro h
    have hall : ∀ p ∈ data, ∀ q ∈ data, p.1 = q.1 := by
      rcases h with h | h
      · intro p hp q hq
        rw [equal_of_length_lt_two data h p hp q hq]
      · exact h
    have hD := xSpread_zero_of_equal data hall
    have hN := numerator_zero_of_equal data hall
    simp [hD, hN, jsDiv, jsSqrt, JSNum.mul, JSNum.sub, JSNum.div]
  · intro c hx hy
    have hD := xSpread_pos data hx
    obtain ⟨h1, h2, h3⟩ := collinear_sums data 0 c (fun p hp => by rw [hy p hp]; ring)
    have hn0 : (data.length : ℝ) ≠ 0 := by
      obtain ⟨p, hp, _⟩ := hx
      have : 0 < data.length := List.length_pos_of_mem hp
      positivity
    have hnum : (data.length : ℝ) * sXY data - sX data * sY data = 0 := by
      rw [h1, h2]; ring
    have hE : (data.length : ℝ) * sYY data - sY data * sY data = 0 := by
      rw [h1, h3]; ring
    have hsY : sY data / (data.length : ℝ) = c := by
      rw [h1]; field_simp
    simp [hnum, hE, jsDiv, jsSqrt, JSNum.mul, JSNum.sub, JSNum.div, hD.ne', hn0, hsY]

/-- C4, witness: two equal samples `(5, 1), (5, 1)` give three `NaN` fields. -/
theorem getLinearRegressionAndR_degenerate_witness :
    (∀ p ∈ ([(5, 1), (5, 1)] : List (ℝ × ℝ)), ∀ q ∈ ([(5, 1), (5, 1)] : List (ℝ × ℝ)),
        p.1 = q.1)
      ∧ ∃ res : TrendResult ℝ,
          getLinearRegressionAndR Real.sqrt [(5, 1), (5, 1)] = Except.ok res
            ∧ res = { slope := JSNum.nan, intercept := JSNum.nan, r := JSNum.nan } := by
  have hall : ∀ p ∈ ([(5, 1), (5, 1)] : List (ℝ × ℝ)),
      ∀ q ∈ ([(5, 1), (5, 1)] : List (ℝ × ℝ)), p.1 = q.1 := by
    intro p hp q hq
    simp only [List.mem_cons, List.mem_singleton, List.not_mem_nil, or_false, or_self] at hp hq
    rw [hp, hq]
  obtain ⟨res, hres, hdeg, _⟩ := getLinearRegressionAndR_degenerate [(5, 1), (5, 1)]
  exact ⟨hall, res, hres, hdeg (Or.inr hall)⟩

/-- C4, counterexample. On the samples `(5, 1), (5, 2)`, whose `x` values are equal,
`getLinearRegressionAndR` raises nothing: it returns the record whose slope, intercept and `r`
are all `NaN`. -/
theorem getLinearRegressionAndR_returns_nan_on_equal_x :
    getLinearRegressionAndR Real.sqrt [(5, 1), (5, 2)]
        = Except.ok { slope := JSNum.nan, intercept := JSNum.nan, r := JSNum.nan }
      ∧ ¬ ∃ e : JSError, getLinearRegressionAndR Real.sqrt [(5, 1), (5, 2)] = Except.error e := by
  have h : getLinearRegressionAndR Real.sqrt [(5, 1), (5, 2)]
      = Except.ok { slope := JSNum.nan, intercept := JSNum.nan, r := JSNum.nan } := by
    rw [getLinearRegressionAndR_eq]
    norm_num [sX, sY, sXX, sYY, sXY, jsDiv, jsSqrt, JSNum.mul, JSNum.sub, JSNum.div]
  refine ⟨h, ?_⟩
  rintro ⟨e, he⟩
  rw [h] at he
  cases he

-- ## LineGraph: the samples that reach the regression

theorem yearMap_some {α : Type} (data : List (Sample α)) (k : Int) (v : Option α)
    (h : yearMap data k = some v) : ∃ s ∈ data, s.x = k ∧ s.y = v := by
  induction data with
  | nil => simp [yearMap] at h
  | cons d ds ih =>
    simp only [yearMap] at h
    cases hrec : yearMap ds k with
    | some w =>
      rw [hrec] at h
      have hw : w = v := Option.some.inj h
      obtain ⟨s, hs, hx, hy⟩ := ih (hw ▸ hrec)
      exact ⟨s, List.mem_cons_of_mem _ hs, hx, hy⟩
    | none =>
      rw [hrec] at h
      by_cases hk : k = d.x
      · rw [if_pos hk] at h
        exact ⟨d, List.mem_cons_self _ _, hk.symm, Option.some.inj h⟩
      · rw [if_neg hk] at h
        cases h

/-- The non-null entries of the filled series are the non-null input samples. -/
theorem mem_validData_fillMissingYears {α : Type} (data : List (Sample α))
    (hnd : (data.map Sample.x).Nodup) (e : Sample α) :
    e ∈ validData (fillMissingYears data) ↔ e ∈ data.filter (fun d => d.y.isSome) := by
  cases hdata : data with
  | nil => simp [validData, fillMissingYears]
  | cons d0 ds0 =>
    rw [← hdata]
    have hne : data ≠ [] := by rw [hdata]; exact List.cons_ne_nil _ _
    obtain ⟨lo, hi, hlo, hhi⟩ := exists_min_max data hne
    have hlo' := (int_min?_eq_some_iff _ _).mp hlo
    have hhi' := (int_max?_eq_some_iff _ _).mp hhi
    have heq := fillMissingYears_eq data lo hi hlo hhi
    simp only [validData, List.mem_filter]
    constructor
    · rintro ⟨he, hy⟩
      refine ⟨?_, hy⟩
      rw [heq, List.mem_map] at he
      obtain ⟨i, _, rfl⟩ := he
      simp only at hy ⊢
      cases hm : yearMap data (lo + (i : Int)) with
      | none => rw [hm] at hy; simp at hy
      | some v =>
        obtain ⟨s, hs, hx, hv⟩ := yearMap_some data _ v hm
        have : s = { x := lo + (i : Int), y := (some v : Option (Option α)).getD none } := by
          cases s
          simp only at hx hv
          simp [hx, hv]
        rw [← this]; exact hs
    · rintro ⟨he, hy⟩
      refine ⟨?_, hy⟩
      have h1 : lo ≤ e.x := hlo'.2 _ (List.mem_map_of_mem _ he)
      have h2 : e.x ≤ hi := hhi'.2 _ (List.mem_map_of_mem _ he)
      rw [heq, List.mem_map]
      refine ⟨(e.x - lo).toNat, List.mem_range.mpr (by omega), ?_⟩
      have hi' : lo + ((e.x - lo).toNat : Int) = e.x := by omega
      rw [hi', yearMap_of_mem data hnd e he]
      rfl

theorem fillMissingYears_pairwise {α : Type} (data : List (Sample α)) :
    (fillMissingYears data).Pairwise (fun e e' => e.x < e'.x) := by
  unfold fillMissingYears
  simp only
  split
  · rw [List.pairwise_map]
    refine (List.pairwise_lt_range _).imp ?_
    intro a b hab
    show _ + (a : Int) < _ + (b : Int)
    omega
  · exact List.Pairwise.nil

section
variable {α : Type} [LinearOrderedField α]

/-- The regression does not depend on the order of the samples. -/
theorem getLinearRegressionAndR_perm (sqrt : α → α) (l₁ l₂ : List (α × α))
    (h : l₁.Perm l₂) :
    getLinearRegressionAndR sqrt l₁ = getLinearRegressionAndR sqrt l₂ := by
  have hX : sX l₁ = sX l₂ := (h.map _).sum_eq
  have hY : sY l₁ = sY l₂ := (h.map _).sum_eq
  have hXX : sXX l₁ = sXX l₂ := (h.map _).sum_eq
  have hYY : sYY l₁ = sYY l₂ := (h.map _).sum_eq
  have hXY : sXY l₁ = sXY l₂ := (h.map _).sum_eq
  rw [getLinearRegressionAndR_eq, getLinearRegressionAndR_eq, hX, hY, hXX, hYY, hXY,
    h.length_eq]

/-- C5. In `LineGraph` the list passed to `getLinearRegressionAndR` is the entries of
`fillMissingYears(data)` with a non-null `y`. For distinct input years this list is a
rearrangement of the non-null input samples, in ascending year order; so its length and its five
sums are those of the non-null input samples, and the fit is the fit over them. -/
theorem lineGraph_fits_non_null_samples (sqrt : α → α) (data : List (Sample α))
    (hnd : (data.map Sample.x).Nodup) :
    lineGraphRegression sqrt data
        = getLinearRegressionAndR sqrt (numericSamples (validData (fillMissingYears data)))
      ∧ (∀ e, e ∈ validData (fillMissingYears data)
          ↔ e ∈ fillMissingYears data ∧ e.y ≠ none)
      ∧ (validData (fillMissingYears data)).Perm (data.filter fun d => d.y.isSome)
      ∧ (validData (fillMissingYears data)).Pairwise (fun e e' => e.x < e'.x)
      ∧ (numericSamples (validData (fillMissingYears data))).length
          = (data.filter fun d => d.y.isSome).length
      ∧ accumulate (numericSamples (validData (fillMissingYears data)))
          = accumulate (numericSamples (data.filter fun d => d.y.isSome))
      ∧ lineGraphRegression sqrt data
          = getLinearRegressionAndR sqrt (numericSamples (data.filter fun d => d.y.isSome)) := by
  have hpw : (validData (fillMissingYears data)).Pairwise (fun e e' => e.x < e'.x) :=
    (fillMissingYears_pairwise data).filter _
  have hnd1 : (validData (fillMissingYears data)).Nodup :=
    hpw.imp (fun {a b} hab heq => by rw [heq] at hab; exact lt_irrefl _ hab)
  have hnd2 : (data.filter fun d => d.y.isSome).Nodup := (List.Nodup.of_map _ hnd).filter _
  have hperm : (validData (fillMissingYears data)).Perm (data.filter fun d => d.y.isSome) :=
    (List.perm_ext_iff_of_nodup hnd1 hnd2).mpr (mem_validData_fillMissingYears data hnd)
  have hperm' := hperm.map (fun d : Sample α => ((d.x : α), d.y.getD 0))
  refine ⟨rfl, ?_, hperm, hpw, ?_, ?_, ?_⟩
  · intro e
    simp [validData, List.mem_filter, Option.isSome_iff_ne_none]
  · simp only [numericSamples, List.length_map]
    exact hperm.length_eq
  · rw [accumulate_eq, accumulate_eq]
    have hX : sX _ = sX _ := (hperm'.map (fun p : α × α => p.1)).sum_eq
    have hY : sY _ = sY _ := (hperm'.map (fun p : α × α => p.2)).sum_eq
    have hXX : sXX _ = sXX _ := (hperm'.map (fun p : α × α => p.1 * p.1)).sum_eq
    have hYY : sYY _ = sYY _ := (hperm'.map (fun p : α × α => p.2 * p.2)).sum_eq
    have hXY : sXY _ = sXY _ := (hperm'.map (fun p : α × α => p.1 * p.2)).sum_eq
    simp only [numericSamples]
    rw [hX, hY, hXX, hYY, hXY]
  · exact getLinearRegressionAndR_perm sqrt _ _ hperm'

end

/-- C5, witness: an unsorted series with a null entry, `(2004, 20), (2001, 10), (2003, null)`. -/
theorem lineGraph_fits_non_null_samples_witness :
    (([⟨2004, some 20⟩, ⟨2001, some 10⟩, ⟨2003, none⟩] : List (Sample ℝ)).map Sample.x).Nodup
      ∧ lineGraphRegression Real.sqrt [⟨2004, some 20⟩, ⟨2001, some 10⟩, ⟨2003, none⟩]
          = getLinearRegressionAndR Real.sqrt
              (numericSamples
                (([⟨2004, some 20⟩, ⟨2001, some 10⟩, ⟨2003, none⟩] : List (Sample ℝ)).filter
                  fun d => d.y.isSome)) :=
  ⟨by decide,
    (lineGraph_fits_non_null_samples Real.sqrt
      [⟨2004, some 20⟩, ⟨2001, some 10⟩, ⟨2003, none⟩] (by decide)).2.2.2.2.2.2⟩

-- ## getHeatmapColor

theorem arrayGet_neg {β : Type} (arr : List β) (i : Int) (h : i < 0) : arrayGet arr i = none := by
  simp [arrayGet, h]

theorem arrayGet_in_range {β : Type} (arr : List β) (i : Int) (h0 : 0 ≤ i)
    (h1 : i < (arr.length : Int)) : ∃ c, arrayGet arr i = some c ∧ c ∈ arr := by
  have hlt : i.toNat < arr.length := by omega
  refine ⟨arr[i.toNat], ?_, List.getElem_mem _⟩
  simp [arrayGet, not_lt.mpr h0, List.getElem?_eq_getElem hlt]

theorem arrayGet_last {β : Type} (arr : List β) (c : β) (h : arr.getLast? = some c) :
    arrayGet arr ((arr.length : Int) - 1) = some c := by
  have hne : arr ≠ [] := by rintro rfl; simp at h
  have hpos : 0 < arr.length := List.length_pos.mpr hne
  have hi : ((arr.length : Int) - 1).toNat = arr.length - 1 := by omega
  have hnn : ¬ ((arr.length : Int) - 1 < 0) := by omega
  rw [arrayGet, if_neg hnn, hi, ← h, List.getLast?_eq_getElem?]

/-- Rounding a point of the segment between two integers stays between them. -/
theorem mathRound_between (a b : Int) (t : ℚ) (h0 : 0 ≤ t) (h1 : t ≤ 1) :
    Min.min a b ≤ mathRound ((a : ℚ) + t * ((b : ℚ) - (a : ℚ)))
      ∧ mathRound ((a : ℚ) + t * ((b : ℚ) - (a : ℚ))) ≤ Max.max a b := by
  have hlo : ((Min.min a b : Int) : ℚ) ≤ (a : ℚ) + t * ((b : ℚ) - (a : ℚ)) := by
    rcases le_total a b with hab | hab
    · rw [min_eq_left hab]
      have : (a : ℚ) ≤ b := by exact_mod_cast hab
      nlinarith
    · rw [min_eq_right hab]
      have : (b : ℚ) ≤ a := by exact_mod_cast hab
      nlinarith
  have hhi : (a : ℚ) + t * ((b : ℚ) - (a : ℚ)) ≤ ((Max.max a b : Int) : ℚ) := by
    rcases le_total a b with hab | hab
    · rw [max_eq_right hab]
      have : (a : ℚ) ≤ b := by exact_mod_cast hab
      nlinarith
    · rw [max_eq_left hab]
      have : (b : ℚ) ≤ a := by exact_mod_cast hab
      nlinarith
  constructor
  · unfold mathRound
    rw [Int.le_floor]
    linarith
  · unfold mathRound
    have : ⌊(a : ℚ) + t * ((b : ℚ) - (a : ℚ)) + 1 / 2⌋ < Max.max a b + 1 := by
      rw [Int.floor_lt, Int.cast_add, Int.cast_one]
      linarith
    omega

theorem between_stops (colormap : Colormap) (f : Stop → Int) (c1 c2 : Stop)
    (h1 : c1 ∈ colormap) (h2 : c2 ∈ colormap) (v : Int)
    (hv : Min.min (f c1) (f c2) ≤ v ∧ v ≤ Max.max (f c1) (f c2)) :
    (∃ s ∈ colormap, f s ≤ v) ∧ ∃ s ∈ colormap, v ≤ f s := by
  constructor
  · rcases le_total (f c1) (f c2) with h | h
    · exact ⟨c1, h1, by rw [min_eq_left h] at hv; exact hv.1⟩
    · exact ⟨c2, h2, by rw [min_eq_right h] at hv; exact hv.1⟩
  · rcases le_total (f c1) (f c2) with h | h
    · exact ⟨c2, h2, by rw [max_eq_right h] at hv; exact hv.2⟩
    · exact ⟨c1, h1, by rw [max_eq_left h] at hv; exact hv.2⟩

/-- For a value inside the range the segment index is a valid index, as is the next one,
and the local ratio is between 0 and 1. -/
theorem segment_in_range (colormap : Colormap) (value min max : ℚ)
    (hlen : 2 ≤ colormap.length) (hmm : min < max) (hlo : min ≤ value) (hhi : value ≤ max) :
    0 ≤ Min.min ⌊(value - min) / (max - min) * (((colormap.length : Int) - 1 : Int) : ℚ)⌋
          ((colormap.length : Int) - 1 - 1)
      ∧ Min.min ⌊(value - min) / (max - min) * (((colormap.length : Int) - 1 : Int) : ℚ)⌋
          ((colormap.length : Int) - 1 - 1) + 1 < (colormap.length : Int)
      ∧ 0 ≤ (value - min) / (max - min) * (((colormap.length : Int) - 1 : Int) : ℚ)
          - ((Min.min ⌊(value - min) / (max - min) * (((colormap.length : Int) - 1 : Int) : ℚ)⌋
              ((colormap.length : Int) - 1 - 1) : Int) : ℚ)
      ∧ (value - min) / (max - min) * (((colormap.length : Int) - 1 : Int) : ℚ)
          - ((Min.min ⌊(value - min) / (max - min) * (((colormap.length : Int) - 1 : Int) : ℚ)⌋
              ((colormap.length : Int) - 1 - 1) : Int) : ℚ) ≤ 1 := by
  have hd : 0 < max - min := sub_pos.mpr hmm
  have hr0 : 0 ≤ (value - min) / (max - min) := div_nonneg (sub_nonneg.mpr hlo) hd.le
  have hr1 : (value - min) / (max - min) ≤ 1 := by
    rw [div_le_one hd]; linarith
  generalize (value - min) / (max - min) = ratio at hr0 hr1
  obtain ⟨N, hN⟩ : ∃ N : Int, N = (colormap.length : Int) - 1 := ⟨_, rfl⟩
  rw [← hN]
  have hN1 : 1 ≤ N := by omega
  have hNq : (1 : ℚ) ≤ (N : ℚ) := by exact_mod_cast hN1
  have hq0 : 0 ≤ ratio * (N : ℚ) := mul_nonneg hr0 (by linarith)
  have hqN : ratio * (N : ℚ) ≤ (N : ℚ) := by nlinarith
  have hf0 : 0 ≤ ⌊ratio * (N : ℚ)⌋ := Int.floor_nonneg.mpr hq0
  have hfN : ⌊ratio * (N : ℚ)⌋ ≤ N := by
    have := Int.floor_le (ratio * (N : ℚ))
    have h : ((⌊ratio * (N : ℚ)⌋ : Int) : ℚ) ≤ (N : ℚ) := le_trans this hqN
    exact_mod_cast h
  have hfl := Int.floor_le (ratio * (N : ℚ))
  have hfu := Int.lt_floor_add_one (ratio * (N : ℚ))
  refine ⟨le_min hf0 (by omega), ?_, ?_, ?_⟩
  · have := min_le_right ⌊ratio * (N : ℚ)⌋ (N - 1)
    omega
  · have h : ((Min.min ⌊ratio * (N : ℚ)⌋ (N - 1) : Int) : ℚ) ≤ ((⌊ratio * (N : ℚ)⌋ : Int) : ℚ) := by
      exact_mod_cast min_le_left _ _
    linarith
  · rcases le_total ⌊ratio * (N : ℚ)⌋ (N - 1) with h | h
    · rw [min_eq_left h]; linarith
    · rw [min_eq_right h]; push_cast; linarith

/-- C7. With `max = min = m` and a colormap of at least one stop, `getHeatmapColor` returns the
same colour for every value, and that colour is the colour of the last stop. -/
theorem getHeatmapColor_degenerate_range (colormap : Colormap) (hlen : 1 ≤ colormap.length)
    (m v1 v2 : ℚ) :
    getHeatmapColor v1 m m colormap = getHeatmapColor v2 m m colormap
      ∧ ∃ last : Stop, colormap.getLast? = some last
          ∧ getHeatmapColor v1 m m colormap = Except.ok (cssRgbJoined last) := by
  have hne : colormap ≠ [] := by rintro rfl; simp at hlen
  obtain ⟨last, hlast⟩ : ∃ last, colormap.getLast? = some last :=
    ⟨colormap.getLast hne, List.getLast?_eq_getLast _ hne⟩
  have h : ∀ v : ℚ, getHeatmapColor v m m colormap = Except.ok (cssRgbJoined last) := by
    intro v
    simp only [getHeatmapColor, if_true, arrayGet_last colormap last hlast]
  exact ⟨by rw [h v1, h v2], last, hlast, h v1⟩

/-- C7, witness: the palette `hot` with `min = max = 160` and the values 1 and 200. -/
theorem getHeatmapColor_degenerate_range_witness :
    1 ≤ colormaps.hot.length
      ∧ getHeatmapColor 1 160 160 colormaps.hot = getHeatmapColor 200 160 160 colormaps.hot
      ∧ ∃ last : Stop, colormaps.hot.getLast? = some last
          ∧ getHeatmapColor 1 160 160 colormaps.hot = Except.ok (cssRgbJoined last) :=
  ⟨by decide, getHeatmapColor_degenerate_range colormaps.hot (by decide) 160 1 200⟩

/-- C8. For a colormap of at least two stops with channels in `0..255`, `min < max` and
`min ≤ value ≤ max`, `getHeatmapColor` returns a colour, and each of its three channels lies
between two values that channel takes over the stops of the colormap, hence in `0..255`. -/
theorem getHeatmapColor_within_stops (colormap : Colormap) (value min max : ℚ)
    (hlen : 2 ≤ colormap.length)
    (hchan : ∀ s ∈ colormap,
      (0 ≤ s.1 ∧ s.1 ≤ 255) ∧ (0 ≤ s.2.1 ∧ s.2.1 ≤ 255) ∧ (0 ≤ s.2.2 ∧ s.2.2 ≤ 255))
    (hmm : min < max) (hlo : min ≤ value) (hhi : value ≤ max) :
    ∃ r g b : Int,
      getHeatmapColor value min max colormap = Except.ok (cssRgb r g b)
        ∧ ((∃ s ∈ colormap, s.1 ≤ r) ∧ ∃ s ∈ colormap, r ≤ s.1)
        ∧ ((∃ s ∈ colormap, s.2.1 ≤ g) ∧ ∃ s ∈ colormap, g ≤ s.2.1)
        ∧ ((∃ s ∈ colormap, s.2.2 ≤ b) ∧ ∃ s ∈ colormap, b ≤ s.2.2)
        ∧ (0 ≤ r ∧ r ≤ 255) ∧ (0 ≤ g ∧ g ≤ 255) ∧ (0 ≤ b ∧ b ≤ 255) := by
  obtain ⟨hs0, hs1, ht0, ht1⟩ := segment_in_range colormap value min max hlen hmm hlo hhi
  obtain ⟨c1, hc1, hm1⟩ := arrayGet_in_range colormap _ hs0 (by omega)
  obtain ⟨c2, hc2, hm2⟩ := arrayGet_in_range colormap _ (by omega) hs1
  obtain ⟨r1, g1, b1⟩ := c1
  obtain ⟨r2, g2, b2⟩ := c2
  have hR := mathRound_between r1 r2 _ ht0 ht1
  have hG := mathRound_between g1 g2 _ ht0 ht1
  have hB := mathRound_between b1 b2 _ ht0 ht1
  have hr := between_stops colormap (fun s => s.1) _ _ hm1 hm2 _ hR
  have hg := between_stops colormap (fun s => s.2.1) _ _ hm1 hm2 _ hG
  have hb := between_stops colormap (fun s => s.2.2) _ _ hm1 hm2 _ hB
  refine ⟨_, _, _, ?_, hr, hg, hb, ?_, ?_, ?_⟩
  · simp only [getHeatmapColor, if_neg hmm.ne', hc1, hc2]
  · obtain ⟨⟨s, hs, h1⟩, ⟨s', hs', h2⟩⟩ := hr
    exact ⟨le_trans (hchan s hs).1.1 h1, le_trans h2 (hchan s' hs').1.2⟩
  · obtain ⟨⟨s, hs, h1⟩, ⟨s', hs', h2⟩⟩ := hg
    exact ⟨le_trans (hchan s hs).2.1.1 h1, le_trans h2 (hchan s' hs').2.1.2⟩
  · obtain ⟨⟨s, hs, h1⟩, ⟨s', hs', h2⟩⟩ := hb
    exact ⟨le_trans (hchan s hs).2.2.1 h1, le_trans h2 (hchan s' hs').2.2.2⟩

/-- C8, witness: the palette `hot` on the range 1 to 160 at the value 80. -/
theorem getHeatmapColor_within_stops_witness :
    2 ≤ colormaps.hot.length
      ∧ (∀ s ∈ colormaps.hot,
          (0 ≤ s.1 ∧ s.1 ≤ 255) ∧ (0 ≤ s.2.1 ∧ s.2.1 ≤ 255) ∧ (0 ≤ s.2.2 ∧ s.2.2 ≤ 255))
      ∧ (1 : ℚ) < 160 ∧ (1 : ℚ) ≤ 80 ∧ (80 : ℚ) ≤ 160
      ∧ ∃ r g b : Int,
          getHeatmapColor 80 1 160 colormaps.hot = Except.ok (cssRgb r g b)
            ∧ ((∃ s ∈ colormaps.hot, s.1 ≤ r) ∧ ∃ s ∈ colormaps.hot, r ≤ s.1)
            ∧ ((∃ s ∈ colormaps.hot, s.2.1 ≤ g) ∧ ∃ s ∈ colormaps.hot, g ≤ s.2.1)
            ∧ ((∃ s ∈ colormaps.hot, s.2.2 ≤ b) ∧ ∃ s ∈ colormaps.hot, b ≤ s.2.2)
            ∧ (0 ≤ r ∧ r ≤ 255) ∧ (0 ≤ g ∧ g ≤ 255) ∧ (0 ≤ b ∧ b ≤ 255) :=
  ⟨by decide, by decide, by norm_num, by norm_num, by norm_num,
    getHeatmapColor_within_stops colormaps.hot 80 1 160 (by decide) (by decide)
      (by norm_num) (by norm_num) (by norm_num)⟩

/-- Every value below `min` makes the first stop lookup `undefined`: a `TypeError`. -/
theorem getHeatmapColor_below_min (colormap : Colormap) (value min max : ℚ)
    (hmm : min < max) (hv : value < min) :
    getHeatmapColor value min max colormap = Except.error JSError.typeError := by
  have hd : 0 < max - min := sub_pos.mpr hmm
  have hr : (value - min) / (max - min) < 0 := div_neg_of_neg_of_pos (sub_neg.mpr hv) hd
  have hseg : Min.min ⌊(value - min) / (max - min) * (((colormap.length : Int) - 1 : Int) : ℚ)⌋
      ((colormap.length : Int) - 1 - 1) < 0 := by
    rcases le_or_lt ((colormap.length : Int) - 1) 0 with hN | hN
    · exact lt_of_le_of_lt (min_le_right _ _) (by omega)
    · refine lt_of_le_of_lt (min_le_left _ _) ?_
      rw [Int.floor_lt, Int.cast_zero]
      have : (0 : ℚ) < (((colormap.length : Int) - 1 : Int) : ℚ) := by exact_mod_cast hN
      exact mul_neg_of_neg_of_pos hr this
  simp only [getHeatmapColor, if_neg hmm.ne', arrayGet_neg _ _ hseg]

/-- Every value above `max` extrapolates the last segment: the local ratio exceeds 1. -/
theorem getHeatmapColor_above_max (colormap : Colormap) (value min max : ℚ)
    (hlen : 2 ≤ colormap.length) (hmm : min < max) (hv : max < value) :
    ∃ r1 g1 b1 r2 g2 b2 : Int, ∃ t : ℚ,
      arrayGet colormap ((colormap.length : Int) - 2) = some (r1, g1, b1)
        ∧ arrayGet colormap ((colormap.length : Int) - 1) = some (r2, g2, b2)
        ∧ t = (value - min) / (max - min) * (((colormap.length : Int) - 1 : Int) : ℚ)
              - (((colormap.length : Int) - 2 : Int) : ℚ)
        ∧ 1 < t
        ∧ getHeatmapColor value min max colormap
            = Except.ok (cssRgb (mathRound ((r1 : ℚ) + t * ((r2 : ℚ) - (r1 : ℚ))))
                (mathRound ((g1 : ℚ) + t * ((g2 : ℚ) - (g1 : ℚ))))
                (mathRound ((b1 : ℚ) + t * ((b2 : ℚ) - (b1 : ℚ))))) := by
  have hd : 0 < max - min := sub_pos.mpr hmm
  have hr : 1 < (value - min) / (max - min) := by
    rw [one_lt_div hd]; linarith
  obtain ⟨N, hN⟩ : ∃ N : Int, N = (colormap.length : Int) - 1 := ⟨_, rfl⟩
  have hN1 : 1 ≤ N := by omega
  have hNq : (1 : ℚ) ≤ (N : ℚ) := by exact_mod_cast hN1
  have hq : (N : ℚ) < (value - min) / (max - min) * (N : ℚ) := by nlinarith
  have hfl : N ≤ ⌊(value - min) / (max - min) * (N : ℚ)⌋ := Int.le_floor.mpr hq.le
  have hseg : Min.min ⌊(value - min) / (max - min) * (N : ℚ)⌋ (N - 1) = N - 1 :=
    min_eq_right (by omega)
  obtain ⟨c1, hc1, _⟩ := arrayGet_in_range colormap (N - 1) (by omega) (by omega)
  obtain ⟨c2, hc2, _⟩ := arrayGet_in_range colormap (N - 1 + 1) (by omega) (by omega)
  obtain ⟨r1, g1, b1⟩ := c1
  obtain ⟨r2, g2, b2⟩ := c2
  have e1 : (colormap.length : Int) - 2 = N - 1 := by omega
  have e2 : (colormap.length : Int) - 1 = N - 1 + 1 := by omega
  refine ⟨r1, g1, b1, r2, g2, b2, _, ?_, ?_, rfl, ?_, ?_⟩
  · rw [e1]; exact hc1
  · rw [e2]; exact hc2
  · rw [e1, ← hN]; push_cast; linarith
  · simp only [getHeatmapColor, if_neg hmm.ne', ← hN, hseg, hc1, hc2, e1]

/-- C10, the failing input. For the value 0 in the range 1 to 160 with the palette `hot` the
ratio is `-1 / 159`, the segment index is `-1`, the stop read there is `undefined`, and
`getHeatmapColor` raises a `TypeError` in place of returning an extrapolated colour. -/
theorem getHeatmapColor_throws_below_min :
    getHeatmapColor 0 1 160 colormaps.hot = Except.error JSError.typeError :=
  getHeatmapColor_below_min colormaps.hot 0 1 160 (by norm_num) (by norm_num)

-- ## The day-number calendar

/-- Consecutive years start `daysInYear` days apart. -/
theorem dayFromYear_succ (y : Int) : dayFromYear (y + 1) = dayFromYear y + daysInYear y := by
  unfold dayFromYear daysInYear
  split_ifs <;> omega

theorem dayFromYear_mono (a b : Int) (h : a ≤ b) : dayFromYear a ≤ dayFromYear b := by
  unfold dayFromYear
  omega

/-- The year found by `yearFromDay` is the one whose days contain `t`. -/
theorem yearFromDay_spec (t : Int) :
    dayFromYear (yearFromDay t) ≤ t ∧ t < dayFromYear (yearFromDay t + 1) := by
  unfold yearFromDay
  simp only
  split_ifs with h1 h2
  · refine ⟨h1, ?_⟩
    unfold dayFromYear
    omega
  · exact ⟨h2, by omega⟩
  · refine ⟨?_, by rw [sub_add_cancel]; omega⟩
    unfold dayFromYear
    omega

/-- The year whose days contain `t` is the only candidate for `yearFromDay t`. -/
theorem yearFromDay_unique (t y : Int) (h1 : dayFromYear y ≤ t) (h2 : t < dayFromYear (y + 1)) :
    yearFromDay t = y := by
  obtain ⟨h3, h4⟩ := yearFromDay_spec t
  rcases lt_trichotomy (yearFromDay t) y with h | h | h
  · have := dayFromYear_mono (yearFromDay t + 1) y (by omega)
    omega
  · exact h
  · have := dayFromYear_mono (y + 1) (yearFromDay t) (by omega)
    omega

theorem daysInYear_eq (y : Int) : daysInYear y = 365 + leapFlag y := by
  unfold leapFlag daysInYear
  split_ifs <;> omega

/-- The years of 366 days are the leap years of the Gregorian rule. -/
theorem leapFlag_eq (y : Int) : leapFlag y = if isLeapYear y then 1 else 0 := by
  unfold leapFlag daysInYear isLeapYear
  by_cases h4 : y % 4 = 0 <;> by_cases h100 : y % 100 = 0 <;> by_cases h400 : y % 400 = 0 <;>
    simp [h4, h100, h400]

theorem leapFlag_range (y : Int) : 0 ≤ leapFlag y ∧ leapFlag y ≤ 1 := by
  unfold leapFlag
  split_ifs <;> omega

theorem daysInMonth_feb (y : Int) : daysInMonth y 2 = 28 + leapFlag y := by
  rw [leapFlag_eq]
  cases hl : isLeapYear y <;> simp [daysInMonth, hl]

theorem daysBeforeMonth_next (y m : Int) (hm0 : 0 ≤ m) (hm1 : m ≤ 11) :
    daysBeforeMonth m (leapFlag y) + daysInMonth y (m + 1)
      = if m = 11 then daysInYear y else daysBeforeMonth (m + 1) (leapFlag y) := by
  have hfeb := daysInMonth_feb y
  have hyr := daysInYear_eq y
  have hcases : m = 0 ∨ m = 1 ∨ m = 2 ∨ m = 3 ∨ m = 4 ∨ m = 5 ∨ m = 6 ∨ m = 7 ∨ m = 8
      ∨ m = 9 ∨ m = 10 ∨ m = 11 := by omega
  rcases hcases with rfl | rfl | rfl | rfl | rfl | rfl | rfl | rfl | rfl | rfl | rfl | rfl
  · norm_num [daysInMonth, daysBeforeMonth]
  · norm_num [daysBeforeMonth]; omega
  · norm_num [daysInMonth, daysBeforeMonth]; omega
  · norm_num [daysInMonth, daysBeforeMonth]; omega
  · norm_num [daysInMonth, daysBeforeMonth]; omega
  · norm_num [daysInMonth, daysBeforeMonth]; omega
  · norm_num [daysInMonth, daysBeforeMonth]; omega
  · norm_num [daysInMonth, daysBeforeMonth]; omega
  · norm_num [daysInMonth, daysBeforeMonth]; omega
  · norm_num [daysInMonth, daysBeforeMonth]; omega
  · norm_num [daysInMonth, daysBeforeMonth]; omega
  · norm_num [daysInMonth, daysBeforeMonth]; omega

theorem daysBeforeMonth_bounds (m L : Int) (hm0 : 0 ≤ m) (hm1 : m ≤ 11) :
    (m = 0 ∧ daysBeforeMonth m L = 0) ∨ (m = 1 ∧ daysBeforeMonth m L = 31)
      ∨ (m = 2 ∧ daysBeforeMonth m L = 59 + L) ∨ (m = 3 ∧ daysBeforeMonth m L = 90 + L)
      ∨ (m = 4 ∧ daysBeforeMonth m L = 120 + L) ∨ (m = 5 ∧ daysBeforeMonth m L = 151 + L)
      ∨ (m = 6 ∧ daysBeforeMonth m L = 181 + L) ∨ (m = 7 ∧ daysBeforeMonth m L = 212 + L)
      ∨ (m = 8 ∧ daysBeforeMonth m L = 243 + L) ∨ (m = 9 ∧ daysBeforeMonth m L = 273 + L)
      ∨ (m = 10 ∧ daysBeforeMonth m L = 304 + L) ∨ (m = 11 ∧ daysBeforeMonth m L = 334 + L) := by
  have hcases : m = 0 ∨ m = 1 ∨ m = 2 ∨ m = 3 ∨ m = 4 ∨ m = 5 ∨ m = 6 ∨ m = 7 ∨ m = 8
      ∨ m = 9 ∨ m = 10 ∨ m = 11 := by omega
  rcases hcases with rfl | rfl | rfl | rfl | rfl | rfl | rfl | rfl | rfl | rfl | rfl | rfl <;>
    norm_num [daysBeforeMonth]

theorem monthOfYearDay_eq (d L m : Int) (hL0 : 0 ≤ L) (hL1 : L ≤ 1) (hm0 : 0 ≤ m)
    (hm1 : m ≤ 11) (h1 : daysBeforeMonth m L ≤ d)
    (h2 : m < 11 → d < daysBeforeMonth (m + 1) L) : monthOfYearDay d L = m := by
  have hb := daysBeforeMonth_bounds m L hm0 hm1
  have hnext : m < 11 → d < daysBeforeMonth m L + 31 := by
    intro hlt
    have h3 := h2 hlt
    have hb' := daysBeforeMonth_bounds (m + 1) L (by omega) (by omega)
    omega
  have hfeb : m = 1 → d < 59 + L := by
    intro h
    have h3 := h2 (by omega)
    have hb' := daysBeforeMonth_bounds (m + 1) L (by omega) (by omega)
    omega
  have h30 : m = 3 ∨ m = 5 ∨ m = 8 ∨ m = 10 → d < daysBeforeMonth m L + 30 := by
    intro h
    have h3 := h2 (by omega)
    have hb' := daysBeforeMonth_bounds (m + 1) L (by omega) (by omega)
    omega
  unfold monthOfYearDay
  rcases hb with ⟨rfl, hv⟩ | ⟨rfl, hv⟩ | ⟨rfl, hv⟩ | ⟨rfl, hv⟩ | ⟨rfl, hv⟩ | ⟨rfl, hv⟩
    | ⟨rfl, hv⟩ | ⟨rfl, hv⟩ | ⟨rfl, hv⟩ | ⟨rfl, hv⟩ | ⟨rfl, hv⟩ | ⟨rfl, hv⟩ <;>
    repeat (first | rw [if_pos (by omega)] | rw [if_neg (by omega)])

theorem dateOfYearDay_eq (d L m : Int) (hm0 : 0 ≤ m) (hm1 : m ≤ 11)
    (hmonth : monthOfYearDay d L = m) :
    dateOfYearDay d L = d - daysBeforeMonth m L + 1 := by
  have hb := daysBeforeMonth_bounds m L hm0 hm1
  unfold dateOfYearDay
  simp only [hmonth]
  rcases hb with ⟨rfl, hv⟩ | ⟨rfl, hv⟩ | ⟨rfl, hv⟩ | ⟨rfl, hv⟩ | ⟨rfl, hv⟩ | ⟨rfl, hv⟩
    | ⟨rfl, hv⟩ | ⟨rfl, hv⟩ | ⟨rfl, hv⟩ | ⟨rfl, hv⟩ | ⟨rfl, hv⟩ | ⟨rfl, hv⟩ <;>
    (repeat (first | rw [if_pos (by omega)] | rw [if_neg (by omega)])) <;> omega

/-- The day within the year of day `k` of month `m` has month `m` and date `k`. -/
theorem yearDay_of_month_day (y m k : Int) (hm0 : 0 ≤ m) (hm1 : m ≤ 11) (hk0 : 1 ≤ k)
    (hk1 : k ≤ daysInMonth y (m + 1)) :
    monthOfYearDay (daysBeforeMonth m (leapFlag y) + k - 1) (leapFlag y) = m
      ∧ dateOfYearDay (daysBeforeMonth m (leapFlag y) + k - 1) (leapFlag y) = k
      ∧ 0 ≤ daysBeforeMonth m (leapFlag y) + k - 1
      ∧ daysBeforeMonth m (leapFlag y) + k - 1 < daysInYear y := by
  obtain ⟨hL0, hL1⟩ := leapFlag_range y
  have hnext := daysBeforeMonth_next y m hm0 hm1
  have hb := daysBeforeMonth_bounds m (leapFlag y) hm0 hm1
  have hyr := daysInYear_eq y
  have hmonth : monthOfYearDay (daysBeforeMonth m (leapFlag y) + k - 1) (leapFlag y) = m := by
    apply monthOfYearDay_eq _ _ _ hL0 hL1 hm0 hm1 (by omega)
    intro hlt
    rw [if_neg (by omega)] at hnext
    omega
  refine ⟨hmonth, ?_, by omega, ?_⟩
  · rw [dateOfYearDay_eq _ _ m hm0 hm1 hmonth]; omega
  · by_cases h11 : m = 11
    · rw [if_pos h11] at hnext; omega
    · rw [if_neg h11] at hnext
      have := daysBeforeMonth_bounds (m + 1) (leapFlag y) (by omega) (by omega)
      omega

/-- Every day within a year is a day of one of its twelve months. -/
theorem month_day_of_yearDay (y d : Int) (h0 : 0 ≤ d) (h1 : d < daysInYear y) :
    ∃ m k : Int, 0 ≤ m ∧ m ≤ 11 ∧ 1 ≤ k ∧ k ≤ daysInMonth y (m + 1)
      ∧ d = daysBeforeMonth m (leapFlag y) + k - 1 := by
  obtain ⟨hL0, hL1⟩ := leapFlag_range y
  have hyr := daysInYear_eq y
  obtain ⟨m, hm0, hm1, hlo, hhi⟩ : ∃ m : Int, 0 ≤ m ∧ m ≤ 11
      ∧ daysBeforeMonth m (leapFlag y) ≤ d
      ∧ (m < 11 → d < daysBeforeMonth (m + 1) (leapFlag y)) := by
    have hsplit : d < 31 ∨ (31 ≤ d ∧ d < 59 + leapFlag y)
        ∨ (59 + leapFlag y ≤ d ∧ d < 90 + leapFlag y)
        ∨ (90 + leapFlag y ≤ d ∧ d < 120 + leapFlag y)
        ∨ (120 + leapFlag y ≤ d ∧ d < 151 + leapFlag y)
        ∨ (151 + leapFlag y ≤ d ∧ d < 181 + leapFlag y)
        ∨ (181 + leapFlag y ≤ d ∧ d < 212 + leapFlag y)
        ∨ (212 + leapFlag y ≤ d ∧ d < 243 + leapFlag y)
        ∨ (243 + leapFlag y ≤ d ∧ d < 273 + leapFlag y)
        ∨ (273 + leapFlag y ≤ d ∧ d < 304 + leapFlag y)
        ∨ (304 + leapFlag y ≤ d ∧ d < 334 + leapFlag y)
        ∨ 334 + leapFlag y ≤ d := by omega
    rcases hsplit with h | h | h | h | h | h | h | h | h | h | h | h
    · refine ⟨0, by norm_num, by norm_num, ?_, ?_⟩ <;> norm_num [daysBeforeMonth] <;> omega
    · refine ⟨1, by norm_num, by norm_num, ?_, ?_⟩ <;> norm_num [daysBeforeMonth] <;> omega
    · refine ⟨2, by norm_num, by norm_num, ?_, ?_⟩ <;> norm_num [daysBeforeMonth] <;> omega
    · refine ⟨3, by norm_num, by norm_num, ?_, ?_⟩ <;> norm_num [daysBeforeMonth] <;> omega
    · refine ⟨4, by norm_num, by norm_num, ?_, ?_⟩ <;> norm_num [daysBeforeMonth] <;> omega
    · refine ⟨5, by norm_num, by norm_num, ?_, ?_⟩ <;> norm_num [daysBeforeMonth] <;> omega
    · refine ⟨6, by norm_num, by norm_num, ?_, ?_⟩ <;> norm_num [daysBeforeMonth] <;> omega
    · refine ⟨7, by norm_num, by norm_num, ?_, ?_⟩ <;> norm_num [daysBeforeMonth] <;> omega
    · refine ⟨8, by norm_num, by norm_num, ?_, ?_⟩ <;> norm_num [daysBeforeMonth] <;> omega
    · refine ⟨9, by norm_num, by norm_num, ?_, ?_⟩ <;> norm_num [daysBeforeMonth] <;> omega
    · refine ⟨10, by norm_num, by norm_num, ?_, ?_⟩ <;> norm_num [daysBeforeMonth] <;> omega
    · refine ⟨11, by norm_num, by norm_num, ?_, ?_⟩ <;> norm_num [daysBeforeMonth]
      omega
  have hnext := daysBeforeMonth_next y m hm0 hm1
  refine ⟨m, d - daysBeforeMonth m (leapFlag y) + 1, hm0, hm1, by omega, ?_, by omega⟩
  by_cases h11 : m = 11
  · rw [if_pos h11] at hnext; omega
  · rw [if_neg h11] at hnext
    have := hhi (by omega)
    omega

theorem daysInMonth_pos (y m : Int) : 28 ≤ daysInMonth y m := by
  unfold daysInMonth
  split_ifs <;> omega

/-- The calendar fields of the day number of day `k` of month `m` of year `y`. -/
theorem calendarDate_of (t y m k : Int) (hm0 : 0 ≤ m) (hm1 : m ≤ 11) (hk0 : 1 ≤ k)
    (hk1 : k ≤ daysInMonth y (m + 1))
    (ht : t = dayFromYear y + daysBeforeMonth m (leapFlag y) + k - 1) :
    calendarDate t = { year := y, month := m + 1, day := k } := by
  obtain ⟨hmonth, hdate, hd0, hd1⟩ := yearDay_of_month_day y m k hm0 hm1 hk0 hk1
  have hyear : yearFromDay t = y :=
    yearFromDay_unique t y (by omega) (by rw [dayFromYear_succ]; omega)
  have hday : t - dayFromYear y = daysBeforeMonth m (leapFlag y) + k - 1 := by omega
  simp only [calendarDate, monthFromDay, dateFromDay, dayWithinYear, inLeapYear, hyear, hday,
    hmonth, hdate]

theorem exists_month_day (t : Int) :
    ∃ y m k : Int, 0 ≤ m ∧ m ≤ 11 ∧ 1 ≤ k ∧ k ≤ daysInMonth y (m + 1)
      ∧ t = dayFromYear y + daysBeforeMonth m (leapFlag y) + k - 1 := by
  obtain ⟨h1, h2⟩ := yearFromDay_spec t
  rw [dayFromYear_succ] at h2
  obtain ⟨m, k, hm0, hm1, hk0, hk1, hd⟩ :=
    month_day_of_yearDay (yearFromDay t) (t - dayFromYear (yearFromDay t)) (by omega) (by omega)
  exact ⟨yearFromDay t, m, k, hm0, hm1, hk0, hk1, by omega⟩

/-- The day number after `t` is the calendar day after that of `t`. -/
theorem calendarDate_succ (t : Int) : calendarDate (t + 1) = nextDay (calendarDate t) := by
  obtain ⟨y, m, k, hm0, hm1, hk0, hk1, ht⟩ := exists_month_day t
  rw [calendarDate_of t y m k hm0 hm1 hk0 hk1 ht]
  have hnext := daysBeforeMonth_next y m hm0 hm1
  unfold nextDay
  simp only
  by_cases hk : k < daysInMonth y (m + 1)
  · rw [if_pos hk]
    exact calendarDate_of (t + 1) y m (k + 1) hm0 hm1 (by omega) (by omega) (by omega)
  · rw [if_neg hk]
    by_cases hm : m + 1 < 12
    · rw [if_pos hm, if_neg (by omega)] at *
      have hpos := daysInMonth_pos y (m + 1 + 1)
      exact calendarDate_of (t + 1) y (m + 1) 1 (by omega) (by omega) (by omega) (by omega)
        (by omega)
    · rw [if_neg hm]
      rw [if_pos (by omega)] at hnext
      have hpos := daysInMonth_pos (y + 1) (0 + 1)
      have h0 : daysBeforeMonth 0 (leapFlag (y + 1)) = 0 := by simp [daysBeforeMonth]
      have := calendarDate_of (t + 1) (y + 1) 0 1 (by omega) (by omega) (by omega) (by omega)
        (by rw [dayFromYear_succ, h0]; omega)
      simpa using this

/-- The day number `n` after `t` is the calendar date `n` days after that of `t`. -/
theorem calendarDate_add (t : Int) (n : Nat) :
    calendarDate (t + (n : Int)) = daysAfter (calendarDate t) n := by
  induction n with
  | zero => simp [daysAfter]
  | succ n ih =>
    have : t + ((n + 1 : Nat) : Int) = t + (n : Int) + 1 := by push_cast; ring
    rw [this, calendarDate_succ, ih, daysAfter, daysAfter, Function.iterate_succ_apply']

theorem calendarDate_newYear (y : Int) :
    calendarDate (dayFromYear y) = { year := y, month := 1, day := 1 } := by
  have hpos := daysInMonth_pos y (0 + 1)
  have h0 : daysBeforeMonth 0 (leapFlag y) = 0 := by simp [daysBeforeMonth]
  have := calendarDate_of (dayFromYear y) y 0 1 (by omega) (by omega) (by omega) (by omega)
    (by rw [h0]; omega)
  simpa using this

-- ## getDateFromDayOfYear and formatDateString

theorem timeClip_in_range (day : Int) (h : -100000000 ≤ day ∧ day ≤ 100000000) :
    timeClip day = some day := by
  unfold timeClip
  rw [if_pos h]

theorem makeDay_january (y d : Int) : makeDay y 0 d = dayFromYear y + d - 1 := by
  simp [makeDay, daysBeforeMonth]

/-- The day number `getDateFromDayOfYear` returns when all dates involved are in range. -/
theorem getDateFromDayOfYear_eq (Y yr d : Int)
    (hyr : yr = if 0 ≤ Y ∧ Y ≤ 99 then 1900 + Y else Y)
    (hr1 : -100000000 ≤ dayFromYear yr ∧ dayFromYear yr ≤ 100000000)
    (hr2 : -100000000 ≤ dayFromYear yr + d - 1 ∧ dayFromYear yr + d - 1 ≤ 100000000) :
    getDateFromDayOfYear Y d = some (dayFromYear yr + d - 1) := by
  have hnew : newDate Y 0 = some (dayFromYear yr) := by
    unfold newDate
    simp only [← hyr, makeDay_january]
    rw [timeClip_in_range _ (by omega)]
    congr 1
    omega
  have hcal := calendarDate_newYear yr
  have hy : yearFromDay (dayFromYear yr) = yr := congrArg CalendarDate.year hcal
  have hm : monthFromDay (dayFromYear yr) = 0 := by
    have := congrArg CalendarDate.month hcal
    simp only [calendarDate] at this
    omega
  unfold getDateFromDayOfYear
  simp only [hnew, setDate, hy, hm, makeDay_january]
  exact timeClip_in_range _ hr2

/-- C6, as amended. For a year `Y` below 0 or above 99 and an integer `d ≥ 1` such that both
1 January of `Y` and the result lie within 100 000 000 days of 1 January 1970,
`getDateFromDayOfYear(Y, d)` is the calendar date `d - 1` days after 1 January of `Y`. So `d = 1`
gives 1 January of `Y`, and for a year `Y` that is not a leap year `d = 365` gives 31 December of
`Y` and `d = 366` gives 1 January of `Y + 1`. -/
theorem getDateFromDayOfYear_days_after (Y d : Int) (hY : Y < 0 ∨ 99 < Y) (hd : 1 ≤ d)
    (hr1 : -100000000 ≤ dayFromYear Y ∧ dayFromYear Y ≤ 100000000)
    (hr2 : -100000000 ≤ dayFromYear Y + d - 1 ∧ dayFromYear Y + d - 1 ≤ 100000000) :
    ∃ t : Int,
      getDateFromDayOfYear Y d = some t
        ∧ calendarDate t = daysAfter { year := Y, month := 1, day := 1 } (d - 1).toNat
        ∧ (d = 1 → calendarDate t = { year := Y, month := 1, day := 1 })
        ∧ (isLeapYear Y = false → d = 365 →
            calendarDate t = { year := Y, month := 12, day := 31 })
        ∧ (isLeapYear Y = false → d = 366 →
            calendarDate t = { year := Y + 1, month := 1, day := 1 }) := by
  have hyr : Y = if 0 ≤ Y ∧ Y ≤ 99 then 1900 + Y else Y := by
    rw [if_neg (by omega)]
  refine ⟨dayFromYear Y + d - 1, getDateFromDayOfYear_eq Y Y d hyr hr1 hr2, ?_, ?_, ?_, ?_⟩
  · have h := calendarDate_add (dayFromYear Y) (d - 1).toNat
    rw [calendarDate_newYear] at h
    rw [← h]
    congr 1
    omega
  · rintro rfl
    rw [← calendarDate_newYear Y]
    congr 1
    omega
  · intro hleap hd365
    have hflag : leapFlag Y = 0 := by rw [leapFlag_eq, hleap]; rfl
    have hb : daysBeforeMonth 11 (leapFlag Y) = 334 := by rw [hflag]; simp [daysBeforeMonth]
    have hdim : daysInMonth Y (11 + 1) = 31 := by simp [daysInMonth]
    have := calendarDate_of (dayFromYear Y + d - 1) Y 11 31 (by omega) (by omega) (by omega)
      (by omega) (by omega)
    simpa using this
  · intro hleap hd366
    have hflag : leapFlag Y = 0 := by rw [leapFlag_eq, hleap]; rfl
    have hyear := daysInYear_eq Y
    have hnext := dayFromYear_succ Y
    have : dayFromYear Y + d - 1 = dayFromYear (Y + 1) := by omega
    rw [this, calendarDate_newYear]

/-- C6, witness: day 366 of 2023, which is not a leap year, is 1 January 2024. -/
theorem getDateFromDayOfYear_days_after_witness :
    ((2023 : Int) < 0 ∨ 99 < (2023 : Int)) ∧ (1 : Int) ≤ 366
      ∧ (-100000000 ≤ dayFromYear 2023 ∧ dayFromYear 2023 ≤ 100000000)
      ∧ (-100000000 ≤ dayFromYear 2023 + 366 - 1 ∧ dayFromYear 2023 + 366 - 1 ≤ 100000000)
      ∧ isLeapYear 2023 = false
      ∧ ∃ t : Int,
          getDateFromDayOfYear 2023 366 = some t
            ∧ calendarDate t = daysAfter { year := 2023, month := 1, day := 1 } 365
            ∧ calendarDate t = { year := 2024, month := 1, day := 1 } := by
  obtain ⟨t, h1, h2, _, _, h5⟩ :=
    getDateFromDayOfYear_days_after 2023 366 (by decide) (by decide) (by decide) (by decide)
  exact ⟨by decide, by decide, by decide, by decide, by decide, t, h1, h2, h5 (by decide) rfl⟩

/-- C6, counterexample. `getDateFromDayOfYear(50, 1)` is 1 January 1950, not 1 January of the
year 50: the `Date` constructor reads a year from 0 to 99 as `1900 + year`. -/
theorem getDateFromDayOfYear_two_digit_year :
    getDateFromDayOfYear 50 1 = some (dayFromYear 1950)
      ∧ calendarDate (dayFromYear 1950) = { year := 1950, month := 1, day := 1 }
      ∧ calendarDate (dayFromYear 1950) ≠ { year := 50, month := 1, day := 1 } := by
  decide

/-- C9, as amended. For every year `Y` from -271820 to 275760 (the years whose 1 January is a
valid `Date`), `formatDateString(getDateFromDayOfYear(Y, 32), "en")` is `Feb 1`, and with a
language other than `en` the same date is rendered in the `ja-JP` locale as `2月1日`, the same
month and day. -/
theorem formatDateString_day_32 (Y : Int) (h1 : -271820 ≤ Y) (h2 : Y ≤ 275760) :
    formatDateString (getDateFromDayOfYear Y 32) "en" false = "Feb 1"
      ∧ ∀ language : String, language ≠ "en" →
          formatDateString (getDateFromDayOfYear Y 32) language false = "2月1日" := by
  obtain ⟨yr, hyr⟩ : ∃ yr : Int, yr = if 0 ≤ Y ∧ Y ≤ 99 then 1900 + Y else Y := ⟨_, rfl⟩
  have hyr1 : -271820 ≤ yr ∧ yr ≤ 275760 := by
    rw [hyr]; split_ifs <;> omega
  have hrange : -100000000 ≤ dayFromYear yr ∧ dayFromYear yr + 32 - 1 ≤ 100000000 := by
    unfold dayFromYear; omega
  have hget := getDateFromDayOfYear_eq Y yr 32 hyr (by omega) (by omega)
  have hb : daysBeforeMonth 1 (leapFlag yr) = 31 := by simp [daysBeforeMonth]
  have hpos := daysInMonth_pos yr (1 + 1)
  have hcal := calendarDate_of (dayFromYear yr + 32 - 1) yr 1 1 (by omega) (by omega)
    (by omega) (by omega) (by omega)
  have hm : monthFromDay (dayFromYear yr + 32 - 1) = 1 := by
    have := congrArg CalendarDate.month hcal
    simp only [calendarDate] at this
    omega
  have hdt : dateFromDay (dayFromYear yr + 32 - 1) = 1 := congrArg CalendarDate.day hcal
  refine ⟨?_, ?_⟩
  · rw [hget]
    simp only [formatDateString, toLocaleDateString, hm, hdt, if_true, Bool.false_eq_true,
      if_false]
    decide
  · intro language hl
    rw [hget]
    simp only [formatDateString, if_neg hl, toLocaleDateString, hm, hdt, Bool.false_eq_true,
      if_false]
    decide

/-- C9, witness: the year 2024 with the languages `en` and `ja`. -/
theorem formatDateString_day_32_witness :
    (-271820 : Int) ≤ 2024 ∧ (2024 : Int) ≤ 275760
      ∧ formatDateString (getDateFromDayOfYear 2024 32) "en" false = "Feb 1"
      ∧ formatDateString (getDateFromDayOfYear 2024 32) "ja" false = "2月1日" :=
  ⟨by decide, by decide, (formatDateString_day_32 2024 (by decide) (by decide)).1,
    (formatDateString_day_32 2024 (by decide) (by decide)).2 "ja" (by decide)⟩

/-- C9, counterexample. For the year 300000 the `Date` is out of range, so
`getDateFromDayOfYear(300000, 32)` is an invalid date and `formatDateString` renders it as
`Invalid Date`, not as `Feb 1`. -/
theorem formatDateString_invalid_date :
    getDateFromDayOfYear 300000 32 = none
      ∧ formatDateString (getDateFromDayOfYear 300000 32) "en" false = "Invalid Date"
      ∧ formatDateString (getDateFromDayOfYear 300000 32) "en" false ≠ "Feb 1" := by
  decide

-- ## getHeatmapColor at the stop positions of the colour bar

/-- Rounding an integer gives the integer. -/
theorem mathRound_int (z : Int) : mathRound (z : ℚ) = z := by
  unfold mathRound
  rw [Int.floor_eq_iff]
  constructor <;> linarith

/-- The colour `getHeatmapColor` returns when the ratio times the number of segments is the
integer `k`: the stop `k`. -/
theorem getHeatmapColor_at_stop (colormap : Colormap) (value min max : ℚ) (k : Nat)
    (hlen : 2 ≤ colormap.length) (hmm : min < max) (hk : k ≤ colormap.length - 1)
    (hratio : (value - min) / (max - min) * (((colormap.length : Int) - 1 : Int) : ℚ) = (k : ℚ)) :
    ∃ r g b : Int, colormap[k]? = some (r, g, b)
      ∧ getHeatmapColor value min max colormap = Except.ok (cssRgb r g b) := by
  obtain ⟨N, hN⟩ : ∃ N : Int, N = (colormap.length : Int) - 1 := ⟨_, rfl⟩
  rw [← hN] at hratio
  have hfloor : ⌊(k : ℚ)⌋ = (k : Int) := Int.floor_natCast k
  have hkN : (k : Int) ≤ N := by omega
  rcases lt_or_eq_of_le hkN with hlt | heq
  · have hseg : Min.min ⌊(k : ℚ)⌋ (N - 1) = (k : Int) := by
      rw [hfloor]; exact min_eq_left (by omega)
    obtain ⟨c1, hc1, _⟩ := arrayGet_in_range colormap (k : Int) (by omega) (by omega)
    obtain ⟨c2, hc2, _⟩ := arrayGet_in_range colormap ((k : Int) + 1) (by omega) (by omega)
    obtain ⟨r1, g1, b1⟩ := c1
    obtain ⟨r2, g2, b2⟩ := c2
    have hget : colormap[k]? = some (r1, g1, b1) := by
      simpa [arrayGet] using hc1
    refine ⟨r1, g1, b1, hget, ?_⟩
    simp only [getHeatmapColor, if_neg hmm.ne', ← hN, hratio, hseg, hc1, hc2]
    have h0 : ∀ a c : Int, mathRound ((a : ℚ) + ((k : ℚ) - ((k : Int) : ℚ)) * ((c : ℚ) - (a : ℚ)))
        = a := by
      intro a c
      have : (a : ℚ) + ((k : ℚ) - ((k : Int) : ℚ)) * ((c : ℚ) - (a : ℚ)) = (a : ℚ) := by
        push_cast; ring
      rw [this, mathRound_int]
    rw [h0, h0, h0]
  · have hseg : Min.min ⌊(k : ℚ)⌋ (N - 1) = N - 1 := by
      rw [hfloor]; exact min_eq_right (by omega)
    obtain ⟨c1, hc1, _⟩ := arrayGet_in_range colormap (N - 1) (by omega) (by omega)
    obtain ⟨c2, hc2, _⟩ := arrayGet_in_range colormap (N - 1 + 1) (by omega) (by omega)
    obtain ⟨r1, g1, b1⟩ := c1
    obtain ⟨r2, g2, b2⟩ := c2
    have hget : colormap[k]? = some (r2, g2, b2) := by
      have hidx : (N - 1 + 1).toNat = k := by omega
      have hnn : ¬ (N - 1 + 1 < 0) := by omega
      rw [arrayGet, if_neg hnn, hidx] at hc2
      exact hc2
    refine ⟨r2, g2, b2, hget, ?_⟩
    simp only [getHeatmapColor, if_neg hmm.ne', ← hN, hratio, hseg, hc1, hc2]
    have h1 : ∀ a c : Int,
        mathRound ((a : ℚ) + ((k : ℚ) - ((N - 1 : Int) : ℚ)) * ((c : ℚ) - (a : ℚ))) = c := by
      intro a c
      have hkq : (k : ℚ) = (N : ℚ) := by exact_mod_cast heq
      have : (a : ℚ) + ((k : ℚ) - ((N - 1 : Int) : ℚ)) * ((c : ℚ) - (a : ℚ)) = (c : ℚ) := by
        rw [hkq]; push_cast; ring
      rw [this, mathRound_int]
    rw [h1, h1, h1]

/-- C11. For a colormap of `len ≥ 2` stops, `min < max` and `k` in `0..len-1`,
`getHeatmapColor` at `value = min + k * (max - min) / (len - 1)` returns exactly the channels of
stop `k`, and `k / (len - 1) * 100` is the percentage `colormapToCSSGradient` gives stop `k` in
the colour bar. In particular `value = min` gives the first stop and `value = max` the last. -/
theorem getHeatmapColor_through_stops (colormap : Colormap) (min max : ℚ) (k : Nat)
    (hlen : 2 ≤ colormap.length) (hmm : min < max) (hk : k ≤ colormap.length - 1) :
    (∃ r g b : Int, colormap[k]? = some (r, g, b)
        ∧ getHeatmapColor (min + (k : ℚ) * (max - min) / ((colormap.length : ℚ) - 1)) min max
            colormap = Except.ok (cssRgb r g b)
        ∧ (colormapToCSSGradient.stops colormap)[k]?
            = some (cssRgb r g b, JSNum.finite ((k : ℚ) / ((colormap.length : ℚ) - 1) * 100)))
      ∧ (∃ r g b : Int, colormap.head? = some (r, g, b)
          ∧ getHeatmapColor min min max colormap = Except.ok (cssRgb r g b))
      ∧ (∃ r g b : Int, colormap.getLast? = some (r, g, b)
          ∧ getHeatmapColor max min max colormap = Except.ok (cssRgb r g b)) := by
  have hd : max - min ≠ 0 := (sub_pos.mpr hmm).ne'
  have hL : (2 : ℚ) ≤ (colormap.length : ℚ) := by exact_mod_cast hlen
  have hL1 : (colormap.length : ℚ) - 1 ≠ 0 := by
    intro h
    linarith
  have hcast : (((colormap.length : Int) - 1 : Int) : ℚ) = (colormap.length : ℚ) - 1 := by
    push_cast; ring
  refine ⟨?_, ?_, ?_⟩
  · obtain ⟨r, g, b, hget, hcol⟩ := getHeatmapColor_at_stop colormap
      (min + (k : ℚ) * (max - min) / ((colormap.length : ℚ) - 1)) min max k hlen hmm hk
      (by rw [hcast]; field_simp; ring)
    refine ⟨r, g, b, hget, hcol, ?_⟩
    simp only [colormapToCSSGradient.stops, List.getElem?_mapIdx, hget, Option.map_some',
      jsDiv, if_neg hL1, JSNum.mul]
  · obtain ⟨r, g, b, hget, hcol⟩ := getHeatmapColor_at_stop colormap min min max 0 hlen hmm
      (by omega) (by simp)
    refine ⟨r, g, b, ?_, hcol⟩
    rw [List.head?_eq_getElem?]
    exact hget
  · obtain ⟨r, g, b, hget, hcol⟩ := getHeatmapColor_at_stop colormap max min max
      (colormap.length - 1) hlen hmm (le_refl _)
      (by
        rw [div_self hd, one_mul]
        have : 1 ≤ colormap.length := by omega
        push_cast [this]
        ring)
    refine ⟨r, g, b, ?_, hcol⟩
    rw [List.getLast?_eq_getElem?]
    exact hget

/-- C11, witness: stop 2 of the palette `hot` on the range 1 to 160, reached at the value 107. -/
theorem getHeatmapColor_through_stops_witness :
    2 ≤ colormaps.hot.length ∧ (1 : ℚ) < 160 ∧ 2 ≤ colormaps.hot.length - 1
      ∧ getHeatmapColor 107 1 160 colormaps.hot = Except.ok (cssRgb 255 255 0)
      ∧ (colormapToCSSGradient.stops colormaps.hot)[2]?
          = some (cssRgb 255 255 0, JSNum.finite ((2 : ℚ) / 3 * 100))
      ∧ getHeatmapColor 1 1 160 colormaps.hot = Except.ok (cssRgb 0 0 0)
      ∧ getHeatmapColor 160 1 160 colormaps.hot = Except.ok (cssRgb 255 255 255) := by
  obtain ⟨⟨r, g, b, hget, hcol, hstop⟩, ⟨r0, g0, b0, hhead, hmin⟩, ⟨r1, g1, b1, hlast, hmax⟩⟩ :=
    getHeatmapColor_through_stops colormaps.hot 1 160 2 (by decide) (by norm_num) (by decide)
  have e1 : (r, g, b) = (255, 255, 0) := by
    have : colormaps.hot[2]? = some ((255, 255, 0) : Stop) := by decide
    rw [this] at hget
    exact (Option.some.inj hget).symm
  have e2 : (r0, g0, b0) = (0, 0, 0) := by
    have : colormaps.hot.head? = some ((0, 0, 0) : Stop) := by decide
    rw [this] at hhead
    exact (Option.some.inj hhead).symm
  have e3 : (r1, g1, b1) = (255, 255, 255) := by
    have : colormaps.hot.getLast? = some ((255, 255, 255) : Stop) := by decide
    rw [this] at hlast
    exact (Option.some.inj hlast).symm
  simp only [Prod.mk.injEq] at e1 e2 e3
  obtain ⟨rfl, rfl, rfl⟩ := e1
  obtain ⟨rfl, rfl, rfl⟩ := e2
  obtain ⟨rfl, rfl, rfl⟩ := e3
  have hlen : ((colormaps.hot.length : ℕ) : ℚ) = 4 := by
    simp [colormaps.hot]
  rw [hlen] at hcol hstop
  have hv : (1 : ℚ) + ((2 : ℕ) : ℚ) * (160 - 1) / (4 - 1) = 107 := by norm_num
  have hp : ((2 : ℕ) : ℚ) / (4 - 1) * 100 = (2 : ℚ) / 3 * 100 := by norm_num
  rw [hv] at hcol
  rw [hp] at hstop
  exact ⟨by decide, by norm_num, by decide, hcol, hstop, hmin, hmax⟩

-- ## getLinearRegressionAndR: the correlation coefficient

section
variable {α : Type} [LinearOrderedField α]

/-- Swapping the coordinates of the samples swaps the sums of `x` and of `y`. -/
theorem sums_swap (data : List (α × α)) :
    sX (data.map Prod.swap) = sY data ∧ sXX (data.map Prod.swap) = sYY data := by
  simp [sX, sY, sXX, sYY, List.map_map, Function.comp_def]

/-- The factor `n * sYY - sY * sY` under the square root is positive when two `y` values
differ. -/
theorem ySpread_pos (data : List (α × α)) (h : ∃ p ∈ data, ∃ q ∈ data, p.2 ≠ q.2) :
    0 < (data.length : α) * sYY data - sY data * sY data := by
  obtain ⟨p, hp, q, hq, hne⟩ := h
  have hswap : ∃ p ∈ data.map Prod.swap, ∃ q ∈ data.map Prod.swap, p.1 ≠ q.1 :=
    ⟨p.swap, List.mem_map_of_mem _ hp, q.swap, List.mem_map_of_mem _ hq, hne⟩
  have := xSpread_pos (data.map Prod.swap) hswap
  rw [(sums_swap data).1, (sums_swap data).2, List.length_map] at this
  exact this

/-- The sum of squared residuals is not negative. -/
theorem sumSquaredResiduals_nonneg (data : List (α × α)) (a b : α) :
    0 ≤ sumSquaredResiduals data a b := by
  unfold sumSquaredResiduals
  apply List.sum_nonneg
  intro v hv
  obtain ⟨p, _, rfl⟩ := List.mem_map.mp hv
  positivity

/-- The Cauchy-Schwarz inequality for the sums of the regression: the square of the numerator of
`r` is at most the product under the square root. -/
theorem numerator_sq_le (data : List (α × α)) (h : ∃ p ∈ data, ∃ q ∈ data, p.1 ≠ q.1) :
    ((data.length : α) * sXY data - sX data * sY data) ^ 2
      ≤ ((data.length : α) * sXX data - sX data * sX data)
        * ((data.length : α) * sYY data - sY data * sY data) := by
  have hD := xSpread_pos data h
  have hn0 : (0 : α) < (data.length : α) := by
    obtain ⟨p, hp, _⟩ := h
    have : 0 < data.length := List.length_pos_of_mem hp
    exact_mod_cast this
  obtain ⟨m, hm⟩ : ∃ m : α, m = ((data.length : α) * sXY data - sX data * sY data)
      / ((data.length : α) * sXX data - sX data * sX data) := ⟨_, rfl⟩
  obtain ⟨c, hc⟩ : ∃ c : α, c = (sY data - m * sX data) / (data.length : α) := ⟨_, rfl⟩
  have e1 : (data.length : α) * c = sY data - m * sX data := by
    rw [hc]; field_simp
  have e2 : m * ((data.length : α) * sXX data - sX data * sX data)
      = (data.length : α) * sXY data - sX data * sY data := by
    rw [hm]; field_simp
  have hsse := sumSquaredResiduals_nonneg data m c
  rw [sumSquaredResiduals_eq] at hsse
  have key : ((data.length : α) * sXX data - sX data * sX data) * (data.length : α)
      * (sYY data - 2 * m * sXY data - 2 * c * sY data + m ^ 2 * sXX data
          + 2 * m * c * sX data + (data.length : α) * c ^ 2)
      = ((data.length : α) * sXX data - sX data * sX data)
          * ((data.length : α) * sYY data - sY data * sY data)
        - ((data.length : α) * sXY data - sX data * sY data) ^ 2 := by
    linear_combination
      (((data.length : α) * sXX data - sX data * sX data)
        * ((data.length : α) * c - (sY data - m * sX data))) * e1
      + (((data.length : α) * sXX data - sX data * sX data) * m
        - ((data.length : α) * sXY data - sX data * sY data)) * e2
  have := mul_nonneg (mul_nonneg hD.le hn0.le) hsse
  rw [key] at this
  linarith

end

/-- C12. For two or more samples whose `x` values are not all equal and whose `y` values are not
all equal, `getLinearRegressionAndR` (over the reals) returns a finite slope and a finite `r`
with `-1 ≤ r ≤ 1`, and `r` has the sign of the slope: both positive, both negative or both
zero. -/
theorem getLinearRegressionAndR_r_valid (data : List (ℝ × ℝ)) (hn : 2 ≤ data.length)
    (hx : ∃ p ∈ data, ∃ q ∈ data, p.1 ≠ q.1) (hy : ∃ p ∈ data, ∃ q ∈ data, p.2 ≠ q.2) :
    ∃ (res : TrendResult ℝ) (slope r : ℝ),
      getLinearRegressionAndR Real.sqrt data = Except.ok res
        ∧ res.slope = JSNum.finite slope ∧ res.r = JSNum.finite r
        ∧ -1 ≤ r ∧ r ≤ 1
        ∧ (0 < r ↔ 0 < slope) ∧ (r < 0 ↔ slope < 0) ∧ (r = 0 ↔ slope = 0) := by
  have hD := xSpread_pos data hx
  have hE := ySpread_pos data hy
  have hCS := numerator_sq_le data hx
  obtain ⟨num, hnum⟩ : ∃ num : ℝ, num = (data.length : ℝ) * sXY data - sX data * sY data :=
    ⟨_, rfl⟩
  obtain ⟨D, hDdef⟩ : ∃ D : ℝ, D = (data.length : ℝ) * sXX data - sX data * sX data := ⟨_, rfl⟩
  obtain ⟨E, hEdef⟩ : ∃ E : ℝ, E = (data.length : ℝ) * sYY data - sY data * sY data := ⟨_, rfl⟩
  rw [← hnum, ← hDdef, ← hEdef] at hCS
  rw [← hDdef] at hD
  rw [← hEdef] at hE
  have hDE : 0 < D * E := mul_pos hD hE
  have hs : 0 < Real.sqrt (D * E) := Real.sqrt_pos.mpr hDE
  have habs : |num| ≤ Real.sqrt (D * E) := Real.abs_le_sqrt hCS
  have hslope : jsDiv num D = JSNum.finite (num / D) := by rw [jsDiv, if_neg hD.ne']
  have hsq : jsSqrt Real.sqrt (D * E) = JSNum.finite (Real.sqrt (D * E)) := by
    rw [jsSqrt, if_neg (not_lt.mpr hDE.le)]
  have hr : jsDiv num (Real.sqrt (D * E)) = JSNum.finite (num / Real.sqrt (D * E)) := by
    rw [jsDiv, if_neg hs.ne']
  refine ⟨_, num / D, num / Real.sqrt (D * E), getLinearRegressionAndR_eq Real.sqrt data,
    ?_, ?_, ?_, ?_, ?_, ?_, ?_⟩
  · show jsDiv _ _ = _
    rw [← hnum, ← hDdef]; exact hslope
  · show JSNum.div _ (jsSqrt Real.sqrt _) = _
    rw [← hnum, ← hDdef, ← hEdef, hsq]; exact hr
  · rw [le_div_iff₀ hs]
    have := neg_abs_le num
    linarith
  · rw [div_le_one hs]
    exact le_trans (le_abs_self num) habs
  · rw [div_pos_iff_of_pos_right hs, div_pos_iff_of_pos_right hD]
  · rw [div_neg_iff, div_neg_iff]
    constructor
    · rintro (⟨_, h⟩ | ⟨h, _⟩)
      · exact absurd hs (not_lt.mpr h.le)
      · exact Or.inr ⟨h, hD⟩
    · rintro (⟨_, h⟩ | ⟨h, _⟩)
      · exact absurd hD (not_lt.mpr h.le)
      · exact Or.inr ⟨h, hs⟩
  · rw [div_eq_zero_iff, div_eq_zero_iff]
    simp [hs.ne', hD.ne']

/-- C12, witness: the samples `(0, 0), (1, 1), (2, 1)`. -/
theorem getLinearRegressionAndR_r_valid_witness :
    2 ≤ ([(0, 0), (1, 1), (2, 1)] : List (ℝ × ℝ)).length
      ∧ (∃ p ∈ ([(0, 0), (1, 1), (2, 1)] : List (ℝ × ℝ)),
          ∃ q ∈ ([(0, 0), (1, 1), (2, 1)] : List (ℝ × ℝ)), p.1 ≠ q.1)
      ∧ (∃ p ∈ ([(0, 0), (1, 1), (2, 1)] : List (ℝ × ℝ)),
          ∃ q ∈ ([(0, 0), (1, 1), (2, 1)] : List (ℝ × ℝ)), p.2 ≠ q.2)
      ∧ ∃ (res : TrendResult ℝ) (slope r : ℝ),
          getLinearRegressionAndR Real.sqrt [(0, 0), (1, 1), (2, 1)] = Except.ok res
            ∧ res.slope = JSNum.finite slope ∧ res.r = JSNum.finite r
            ∧ -1 ≤ r ∧ r ≤ 1
            ∧ (0 < r ↔ 0 < slope) ∧ (r < 0 ↔ slope < 0) ∧ (r = 0 ↔ slope = 0) :=
  ⟨by simp, ⟨(0, 0), by simp, (1, 1), by simp, by norm_num⟩,
    ⟨(0, 0), by simp, (1, 1), by simp, by norm_num⟩,
    getLinearRegressionAndR_r_valid [(0, 0), (1, 1), (2, 1)] (by simp)
      ⟨(0, 0), by simp, (1, 1), by simp, by norm_num⟩
      ⟨(0, 0), by simp, (1, 1), by simp, by norm_num⟩⟩
